import Mathlib

/-!
Verification development for the document-intelligence kernel of the
Docs-Navigator repository.

The Python sources embedded here are `src/server/server.py` (section
extraction, lexical search, semantic search, document comparison, gap
analysis, path guards) and `document_intelligence.py` (tokenizer, smart
summary, readability, TF-IDF-like related-content discovery).

Modelling conventions:
* text is a Lean `String`, manipulated through its underlying `List Char`
  (Python indexes strings by character, as we do here);
* Python `int`/float arithmetic on scores is embedded into `ℚ` (exact
  rationals); all the concrete evaluations below stay inside values on
  which Python's binary floating point is exact, except where a theorem
  explicitly concerns `float`-vs-`str` behaviour, which is modelled
  directly;
* Python dicts with a fixed key set become structures; keys that are only
  present on some paths become `Option` fields;
* `list.sort`/`sorted` (Timsort, stable) is embedded as a stable insertion
  sort: a stable sort is uniquely determined by the comparison preorder,
  so the two agree elementwise.
-/

/-- The characters Python's `str.strip()` removes (ASCII whitespace). -/
def pyIsSpace (c : Char) : Bool :=
  c == ' ' || c == '\t' || c == '\n' || c == '\r' || c == '\x0b' || c == '\x0c'

/-- Python `str.strip()` on a character list. -/
def pyStripList (l : List Char) : List Char :=
  ((l.dropWhile pyIsSpace).reverse.dropWhile pyIsSpace).reverse

/-- Python `str.strip()`. -/
def pyStrip (s : String) : String := String.mk (pyStripList s.data)

/-- Python `str.lower()` (ASCII case folding; all corpora here are ASCII). -/
def lowerStr (s : String) : String := String.mk (s.data.map Char.toLower)

/-- Python `text.split('\n')`: split at every newline, keeping empty pieces. -/
def split_lines_chars : List Char → List (List Char)
  | [] => [[]]
  | c :: cs =>
    if c == '\n' then [] :: split_lines_chars cs
    else
      match split_lines_chars cs with
      | [] => [[c]]
      | piece :: rest => (c :: piece) :: rest

/-- `'\n'.join(...)` (or any separator). -/
def join_with (sep : List Char) : List (List Char) → List Char
  | [] => []
  | [x] => x
  | x :: y :: ys => x ++ sep ++ join_with sep (y :: ys)

/-- One parsed heading, as built by the identical first passes of
`_extract_sections` and `_extract_hierarchical_sections`:
`title` is the stripped raw line, `clean_title` the text after the `#`
markers, `level` the count of leading `#`, `line_index` the 0-based line. -/
structure Header where
  title : String
  clean_title : String
  level : Nat
  line_index : Nat
deriving DecidableEq, Repr

/-- The header-collection pass shared verbatim by `_extract_sections` and
`_extract_hierarchical_sections` in `server.py`: a line whose stripped form
starts with `#` is a heading. -/
def collect_headers (content : String) : List Header :=
  ((split_lines_chars content.data).enum.filterMap (fun p =>
    let stripped := pyStripList p.2
    if stripped.head? == some '#' then
      some { title := String.mk stripped
             clean_title := String.mk (pyStripList (stripped.dropWhile (fun c => c == '#')))
             level := (stripped.takeWhile (fun c => c == '#')).length
             line_index := p.1 }
    else none))

/-- A section dict produced by either extractor.  The flat extractor never
sets `includes_subsections`; the synthetic "Document Content" section sets
neither `level` nor `includes_subsections`. -/
structure DocSection where
  title : String
  content : String
  level : Option Nat
  includes_subsections : Option Bool
deriving DecidableEq, Repr

/-- The inner loop of both extractors: first later header with level ≤ the
current one, else the number of lines. -/
def next_section_end (rest : List Header) (level : Nat) (numLines : Nat) : Nat :=
  match rest.find? (fun h => decide (h.level ≤ level)) with
  | some h => h.line_index
  | none => numLines

/-- `_extract_sections` (server.py, lines 203-248): the "flat" extractor.
For heading `i` the content is the lines from `line_index + 1` up to the
next heading of level ≤ `level i`. -/
def extract_sections (content : String) : List DocSection :=
  let lines := split_lines_chars content.data
  let headers := collect_headers content
  if headers.isEmpty then
    [{ title := "Document Content", content := pyStrip content,
       level := none, includes_subsections := none }]
  else
    headers.enum.map (fun p =>
      let header := p.2
      let start := header.line_index + 1
      let stop := next_section_end (headers.drop (p.1 + 1)) header.level lines.length
      let body := join_with ['\n'] ((lines.drop start).take (stop - start))
      { title := header.title, content := String.mk (pyStripList body),
        level := some header.level, includes_subsections := none })

/-- `_extract_hierarchical_sections` (server.py, lines 146-200): content runs
from the header line itself to the next heading of level ≤ `level i`; the
header line is stripped back off afterwards; `includes_subsections` records
whether a strictly deeper heading lies inside the span. -/
def extract_hierarchical_sections (content : String) : List DocSection :=
  let lines := split_lines_chars content.data
  let headers := collect_headers content
  if headers.isEmpty then
    [{ title := "Document Content", content := pyStrip content,
       level := none, includes_subsections := none }]
  else
    headers.enum.map (fun p =>
      let header := p.2
      let start := header.line_index
      let stop := next_section_end (headers.drop (p.1 + 1)) header.level lines.length
      let sectionContent := pyStripList (join_with ['\n'] ((lines.drop start).take (stop - start)))
      let cleanContent :=
        if sectionContent.head? == some '#' then
          pyStripList (join_with ['\n'] ((split_lines_chars sectionContent).drop 1))
        else sectionContent
      { title := header.title, content := String.mk cleanContent,
        level := some header.level,
        includes_subsections := some ((headers.drop (p.1 + 1)).any
          (fun h => decide (h.line_index < stop) && decide (header.level < h.level))) })

/-- Default section used for out-of-range indexing in statements. -/
def dfltSection : DocSection := { title := "", content := "", level := none, includes_subsections := none }

/-- `c == '.' || c == '!' || c == '?'` — the class `[.!?]`. -/
def isSentencePunct (c : Char) : Bool := c == '.' || c == '!' || c == '?'

/-- `re.split(r'[.!?]+', _)`-style splitting: a maximal run of characters
satisfying `p` separates two pieces.  `acc` is the current piece reversed,
`prevDelim` records whether the previous character belonged to a run. -/
def resplit_runs_aux (p : Char → Bool) : List Char → List Char → Bool → List (List Char)
  | [], acc, _ => [acc.reverse]
  | c :: cs, acc, prevDelim =>
    if p c then
      if prevDelim then resplit_runs_aux p cs acc true
      else acc.reverse :: resplit_runs_aux p cs [] true
    else resplit_runs_aux p cs (c :: acc) false

/-- `re.split` on one-or-more repetitions of a character class. -/
def resplit_runs (p : Char → Bool) (l : List Char) : List (List Char) :=
  resplit_runs_aux p l [] false

/-- `_split_into_sentences` (document_intelligence.py, lines 258-262):
split on `[.!?]+`, strip each piece, keep the nonempty ones longer than
10 characters. -/
def split_into_sentences (content : String) : List String :=
  (((resplit_runs isSentencePunct content.data).map pyStripList).filter
    (fun s => !s.isEmpty && decide (10 < s.length))).map String.mk

def isAsciiLower (c : Char) : Bool := 97 ≤ c.toNat && c.toNat ≤ 122

def isAsciiUpper (c : Char) : Bool := 65 ≤ c.toNat && c.toNat ≤ 90

def isAsciiAlpha (c : Char) : Bool := isAsciiLower c || isAsciiUpper c

def isDigitCh (c : Char) : Bool := 48 ≤ c.toNat && c.toNat ≤ 57

/-- Maximal runs of ASCII letters — `re.findall(r'\b[a-zA-Z]+\b', _)`. -/
def alpha_runs_aux : List Char → List Char → List (List Char)
  | [], acc => if acc.isEmpty then [] else [acc.reverse]
  | c :: cs, acc =>
    if isAsciiAlpha c then alpha_runs_aux cs (c :: acc)
    else if acc.isEmpty then alpha_runs_aux cs []
    else acc.reverse :: alpha_runs_aux cs []

def alpha_runs (l : List Char) : List (List Char) := alpha_runs_aux l []

/-- The fixed stop-word set of `_extract_words`. -/
def stop_words : List String :=
  ["the", "a", "an", "and", "or", "but", "in", "on", "at", "to", "for", "of",
   "with", "by", "is", "are", "was", "were", "be", "been", "have", "has",
   "had", "do", "does", "did", "will", "would", "could", "should", "may",
   "might", "can", "this", "that", "these", "those", "it", "its", "they",
   "them", "their"]

/-- `_extract_words` (document_intelligence.py, lines 264-269): lowercase,
take maximal alphabetic runs, drop stop words and words of length ≤ 2. -/
def extract_words (text : String) : List String :=
  ((alpha_runs (text.data.map Char.toLower)).map String.mk).filter
    (fun w => !(stop_words.contains w) && decide (2 < w.length))

def isVowelCh (c : Char) : Bool :=
  c == 'a' || c == 'e' || c == 'i' || c == 'o' || c == 'u' || c == 'y'

/-- Count of transitions into a vowel run. -/
def vowel_groups_aux : List Char → Bool → Nat
  | [], _ => 0
  | c :: cs, prevV =>
    if isVowelCh c then (if prevV then 0 else 1) + vowel_groups_aux cs true
    else vowel_groups_aux cs false

/-- `_count_syllables` (document_intelligence.py, lines 271-293). -/
def count_syllables (word : String) : Nat :=
  let w := word.data.map Char.toLower
  if w.length ≤ 3 then 1
  else
    let n := vowel_groups_aux w false
    let n := if (w.getLast? == some 'e') && decide (1 < n) then n - 1 else n
    max 1 n

/-- Literal-prefix matcher: returns the remainder after the literal. -/
def strip_lit : List Char → List Char → Option (List Char)
  | [], l => some l
  | _, [] => none
  | a :: xs, b :: ys => if a == b then strip_lit xs ys else none

/-- Matcher for `re.sub`: given the text at the current position, either
no match, or the replacement characters together with the remainder after
the matched span. -/
def sub_scan (matcher : List Char → Option (List Char × List Char)) :
    Nat → List Char → List Char
  | 0, l => l
  | fuel + 1, l =>
    match l with
    | [] => []
    | c :: cs =>
      match matcher (c :: cs) with
      | some (repl, rest) => repl ++ sub_scan matcher fuel rest
      | none => c :: sub_scan matcher fuel cs

/-- `\n--- Page \d+ ---\n` → `\n\n`. -/
def match_page_marker (l : List Char) : Option (List Char × List Char) :=
  match l with
  | '\n' :: rest =>
    match strip_lit ("--- Page ").data rest with
    | none => none
    | some r1 =>
      if (r1.takeWhile isDigitCh).isEmpty then none
      else
        match strip_lit (" ---\n").data (r1.dropWhile isDigitCh) with
        | none => none
        | some r2 => some (('\n' :: ['\n']), r2)
  | _ => none

/-- Lazy `.*?` up to a literal, which `.` must reach without crossing a
newline (no DOTALL). -/
def scan_until (lit : List Char) : Nat → List Char → Option (List Char)
  | 0, _ => none
  | fuel + 1, l =>
    match strip_lit lit l with
    | some r => some r
    | none =>
      match l with
      | [] => none
      | c :: cs => if c == '\n' then none else scan_until lit fuel cs

/-- `\n--- Page \d+ \(Error reading:.*?\) ---\n` → `\n\n`. -/
def match_error_marker (l : List Char) : Option (List Char × List Char) :=
  match l with
  | '\n' :: rest =>
    match strip_lit ("--- Page ").data rest with
    | none => none
    | some r1 =>
      if (r1.takeWhile isDigitCh).isEmpty then none
      else
        match strip_lit (" (Error reading:").data (r1.dropWhile isDigitCh) with
        | none => none
        | some r2 =>
          match scan_until (") ---\n").data (r2.length + 1) r2 with
          | none => none
          | some r3 => some (('\n' :: ['\n']), r3)
  | _ => none

/-- `\n\s*\n\s*\n+` → `\n\n`: the leftmost-greedy match starts at a newline
whose maximal whitespace run contains at least three newlines and ends just
after the last newline of that run. -/
def match_blank_runs (l : List Char) : Option (List Char × List Char) :=
  match l with
  | '\n' :: _ =>
    let run := l.takeWhile pyIsSpace
    if 3 ≤ (run.filter (fun c => c == '\n')).length then
      let j := run.length - 1 - (run.reverse.findIdx (fun c => c == '\n'))
      some (('\n' :: ['\n']), l.drop (j + 1))
    else none
  | _ => none

def isWordCh (c : Char) : Bool := isAsciiAlpha c || isDigitCh c || c == '_'

/-- `(\w)-\s*\n\s*(\w)` → `\1\2`: a hyphen between word characters whose
following whitespace run contains a newline. -/
def match_hyphen_break (l : List Char) : Option (List Char × List Char) :=
  match l with
  | c1 :: '-' :: rest =>
    if isWordCh c1 then
      let run := rest.takeWhile pyIsSpace
      if run.any (fun c => c == '\n') then
        match rest.drop run.length with
        | c2 :: rest2 => if isWordCh c2 then some ([c1, c2], rest2) else none
        | [] => none
      else none
    else none
  | _ => none

/-- `([a-z])([A-Z])` → `\1 \2`. -/
def match_case_break (l : List Char) : Option (List Char × List Char) :=
  match l with
  | c1 :: c2 :: rest =>
    if isAsciiLower c1 && isAsciiUpper c2 then some ([c1, ' ', c2], rest) else none
  | _ => none

/-- `' +'` → `' '`. -/
def match_space_run (l : List Char) : Option (List Char × List Char) :=
  match l with
  | ' ' :: rest => some ([' '], rest.dropWhile (fun c => c == ' '))
  | _ => none

/-- `_clean_pdf_content` (document_intelligence.py, lines 382-403): the six
`re.sub` passes in source order, then `strip()`. -/
def clean_pdf_content (content : String) : String :=
  let l0 := content.data
  let l1 := sub_scan match_page_marker (l0.length + 1) l0
  let l2 := sub_scan match_error_marker (l1.length + 1) l1
  let l3 := sub_scan match_blank_runs (l2.length + 1) l2
  let l4 := sub_scan match_hyphen_break (l3.length + 1) l3
  let l5 := sub_scan match_case_break (l4.length + 1) l4
  let l6 := sub_scan match_space_run (l5.length + 1) l5
  String.mk (pyStripList l6)

/-- Python's `round(·)` to an integer: round half to even. -/
def roundHalfEven (q : ℚ) : ℤ :=
  if q - ⌊q⌋ < 1/2 then ⌊q⌋
  else if 1/2 < q - ⌊q⌋ then ⌊q⌋ + 1
  else if 2 ∣ ⌊q⌋ then ⌊q⌋ else ⌊q⌋ + 1

/-- Python `round(x, 1)` (on the exact rational value). -/
def pyRound1 (q : ℚ) : ℚ := (roundHalfEven (q * 10) : ℚ) / 10

/-- Python `round(x, 2)` (on the exact rational value). -/
def pyRound2 (q : ℚ) : ℚ := (roundHalfEven (q * 100) : ℚ) / 100

/-- Result dict of `analyze_readability`: the degenerate branch returns
`{"flesch_score": 0, "grade_level": 0, "complexity": "unknown"}`; the main
branch returns the seven-key dict. -/
inductive ReadabilityResult where
  | degenerate : ReadabilityResult
  | stats (flesch_score grade_level : ℚ) (complexity : String)
      (avg_sentence_length avg_syllables_per_word : ℚ)
      (total_sentences total_words : Nat) : ReadabilityResult
deriving DecidableEq, Repr

def flesch_score_of : ReadabilityResult → ℚ
  | .degenerate => 0
  | .stats f _ _ _ _ _ _ => f

def grade_level_of : ReadabilityResult → ℚ
  | .degenerate => 0
  | .stats _ g _ _ _ _ _ => g

def complexity_of : ReadabilityResult → String
  | .degenerate => "unknown"
  | .stats _ _ c _ _ _ _ => c

/-- `analyze_readability` (document_intelligence.py, lines 133-181). -/
def analyze_readability (content : String) : ReadabilityResult :=
  let cleaned := clean_pdf_content content
  let sentences := split_into_sentences cleaned
  let words := extract_words cleaned
  if sentences.isEmpty || words.isEmpty then .degenerate
  else
    let sentence_count := sentences.length
    let word_count := words.length
    let syllable_count := (words.map count_syllables).sum
    let avg_sentence_length : ℚ := (word_count : ℚ) / (sentence_count : ℚ)
    let avg_syllables : ℚ :=
      if 0 < word_count then (syllable_count : ℚ) / (word_count : ℚ) else 0
    let flesch_score : ℚ := 206.835 - 1.015 * avg_sentence_length - 84.6 * avg_syllables
    let flesch_score := max 0 (min 100 flesch_score)
    let grade_level : ℚ := 0.39 * avg_sentence_length + 11.8 * avg_syllables - 15.59
    let grade_level := max 1 grade_level
    let complexity :=
      if 70 ≤ flesch_score then "easy"
      else if 50 ≤ flesch_score then "moderate"
      else if 30 ≤ flesch_score then "difficult"
      else "very difficult"
    .stats (pyRound1 flesch_score) (pyRound1 grade_level) complexity
      (pyRound1 avg_sentence_length) (pyRound2 avg_syllables)
      sentence_count word_count

/-- Concrete document used to settle claim C8. -/
def c8doc : String := "Dogs bark loudly at night often."

/-- Python `content.split()`: split on whitespace runs, no empty pieces. -/
def split_ws_aux : List Char → List Char → List (List Char)
  | [], acc => if acc.isEmpty then [] else [acc.reverse]
  | c :: cs, acc =>
    if pyIsSpace c then
      if acc.isEmpty then split_ws_aux cs [] else acc.reverse :: split_ws_aux cs []
    else split_ws_aux cs (c :: acc)

def split_ws (l : List Char) : List (List Char) := split_ws_aux l []

/-- The characters stripped by `word.strip('.,!?;:')` in `compare_documents`. -/
def isComparePunct (c : Char) : Bool :=
  c == '.' || c == ',' || c == '!' || c == '?' || c == ';' || c == ':'

def strip_punct (l : List Char) : List Char :=
  ((l.dropWhile isComparePunct).reverse.dropWhile isComparePunct).reverse

/-- `set(word.lower().strip('.,!?;:') for word in content.split())` from
`compare_documents` (server.py, lines 875-876). -/
def compare_word_set (content : String) : Finset String :=
  ((split_ws content.data).map (fun w => String.mk (strip_punct (w.map Char.toLower)))).toFinset

/-- The `content_similarity` block of `compare_documents` (server.py,
lines 843-911), together with the unique-word sets it is built from.
`similarity_q` embeds the `similarity_ratio` key:
`len(common) / len(union)` when the union is nonempty, else `0`. -/
structure CompareContent where
  common_words_count : Nat
  unique_to_doc1 : Finset String
  unique_to_doc2 : Finset String
  unique_to_doc1_count : Nat
  unique_to_doc2_count : Nat
  similarity_q : ℚ

/-- `compare_documents`, restricted to the word-set statistics the claims
are about (the guard behaviour of the tool wrapper is modelled separately). -/
def compare_documents (content1 content2 : String) : CompareContent :=
  let words1 := compare_word_set content1
  let words2 := compare_word_set content2
  let common_words := words1 ∩ words2
  let unique_to_doc1 := words1 \ words2
  let unique_to_doc2 := words2 \ words1
  { common_words_count := common_words.card
    unique_to_doc1 := unique_to_doc1
    unique_to_doc2 := unique_to_doc2
    unique_to_doc1_count := unique_to_doc1.card
    unique_to_doc2_count := unique_to_doc2.card
    similarity_q :=
      if 0 < (words1 ∪ words2).card then
        (common_words.card : ℚ) / ((words1 ∪ words2).card : ℚ)
      else 0 }

/-- Substring test, Python's `small in big` on strings. -/
def contains_chars (big small : List Char) : Bool := decide (small <:+: big)

/-- Substring test on `String`s. -/
def contains_str (big small : String) : Bool := contains_chars big.data small.data

/-- A corpus document: root-relative path plus its text. -/
structure Doc where
  path : String
  text : String
deriving DecidableEq, Repr

/-- A header dict of `_extract_headers` (server.py, lines 251-267): here
`title` is the clean title (after the `#` markers) and `line` is 1-based. -/
structure HeaderLn where
  level : Nat
  title : String
  line : Nat
deriving DecidableEq, Repr

/-- `_extract_headers` (server.py, lines 251-267). -/
def extract_headers (content : String) : List HeaderLn :=
  ((split_lines_chars content.data).enum.filterMap (fun p =>
    let stripped := pyStripList p.2
    if stripped.head? == some '#' then
      some { level := (stripped.takeWhile (fun c => c == '#')).length
             title := String.mk (pyStripList (stripped.dropWhile (fun c => c == '#')))
             line := p.1 + 1 }
    else none))

/-- `', '.join(...)`. -/
def join_comma (l : List String) : String :=
  String.mk (join_with (", ").data (l.map String.data))

/-- Python `min` of a nonempty list (0 for the empty list, unreachable here). -/
def list_min : List Nat → Nat
  | [] => 0
  | x :: xs => xs.foldl Nat.min x

/-- The fixed checklist of `analyze_document_gaps`. -/
def common_sections : List String :=
  ["introduction", "overview", "getting started", "configuration", "examples",
   "troubleshooting"]

/-- Whether one document covers one checklist entry:
`any(section in header for header in headers)` with
`headers = [h['title'].lower() for h in _extract_headers(content)]`. -/
def doc_covers (d : Doc) (s : String) : Bool :=
  ((extract_headers d.text).map (fun h => lowerStr h.title)).any
    (fun hdr => contains_str hdr s)

/-- The `section_coverage` dict of `analyze_document_gaps`: for each
checklist entry, the number of documents with a matching heading. -/
def section_coverage (docs : List Doc) : List (String × Nat) :=
  common_sections.map (fun s => (s, (docs.filter (fun d => doc_covers d s)).length))

/-- The parts of the `analyze_document_gaps` result dict (server.py,
lines 1151-1232) that the claims quantify over. -/
structure GapAnalysis where
  recommendations : List String
  coverage : List (String × Nat)
  short_documents : List String
  long_documents : List String
  low_readability : List String
deriving Repr

/-- `analyze_document_gaps` (server.py, lines 1151-1232): word-count
outliers, low-readability documents, checklist coverage, and the
recommendation strings assembled from them. -/
def analyze_document_gaps (docs : List Doc) : GapAnalysis :=
  let short_docs := (docs.filter (fun d => decide ((split_ws d.text.data).length < 100))).map Doc.path
  let long_docs := (docs.filter (fun d =>
    !decide ((split_ws d.text.data).length < 100) && decide (3000 < (split_ws d.text.data).length))).map Doc.path
  let low_readability_docs := (docs.filter (fun d =>
    decide (flesch_score_of (analyze_readability d.text) < 30))).map Doc.path
  let coverage := section_coverage docs
  let least_covered := list_min (coverage.map Prod.snd)
  let missing_section_types := (coverage.filter (fun p => decide (p.2 ≤ least_covered))).map Prod.fst
  let recommendations :=
    (if short_docs.isEmpty then [] else
      ["Consider expanding these short documents: " ++ join_comma (short_docs.take 3)])
    ++ (if low_readability_docs.isEmpty then [] else
      ["Improve readability of: " ++ join_comma (low_readability_docs.take 3)])
    ++ (if missing_section_types.isEmpty then [] else
      ["Consider adding " ++ join_comma missing_section_types ++ " sections to more documents"])
  { recommendations := recommendations
    coverage := coverage
    short_documents := short_docs
    long_documents := long_docs
    low_readability := low_readability_docs }

/-- Stable insertion step for Python's `sorted`: `x` goes in front of the
first element `y` with `ge x y`; on ties the earlier (already-placed)
element keeps priority only when `ge x y` is false, so with a "key of `x` ≥
key of `y`" comparator this reproduces stable descending order. -/
def insert_ge {α : Type} (ge : α → α → Bool) (x : α) : List α → List α
  | [] => [x]
  | y :: ys => if ge x y then x :: y :: ys else y :: insert_ge ge x ys

/-- Stable insertion sort; the unique stable sort for the preorder `ge`,
hence elementwise equal to Python's Timsort-based `sorted`. -/
def sort_ge {α : Type} (ge : α → α → Bool) : List α → List α
  | [] => []
  | x :: xs => insert_ge ge x (sort_ge ge xs)

/-- The fixed importance-keyword list of `generate_smart_summary`. -/
def summary_keywords : List String :=
  ["important", "key", "main", "primary", "essential", "note", "must",
   "should", "required", "configure", "setup", "install", "create", "build"]

/-- The composite score of sentence `i` (0-based) among `n` sentences,
following `generate_smart_summary` (document_intelligence.py, lines 38-67):
word-frequency sum + position bonus + length bonus + keyword bonus, all
divided by `max(len(sentence_words), 1)`. -/
def sentence_score (allWords : List String) (n i : Nat) (sentence : String) : ℚ :=
  let sentence_words := extract_words sentence
  let freqScore := (sentence_words.map (fun w => allWords.count w)).sum
  let posScore : Nat := if i < 3 then 5 else if n ≤ i + 2 then 3 else 0
  let word_count := sentence_words.length
  let lenScore : Nat :=
    if 10 ≤ word_count ∧ word_count ≤ 25 then 3
    else if 5 ≤ word_count ∧ word_count ≤ 35 then 1 else 0
  let kwScore := 2 * (summary_keywords.filter (fun k => contains_str (lowerStr sentence) k)).length
  ((freqScore + posScore + lenScore + kwScore : Nat) : ℚ) / ((max word_count 1 : Nat) : ℚ)

/-- `top_count` selection: K = 3 / 10 / 6 for short / long / other, capped
by the number of sentences. -/
def summary_top_count (summary_type : String) (n : Nat) : Nat :=
  if summary_type == "short" then min 3 n
  else if summary_type == "long" then min 10 n
  else min 6 n

/-- The `(index, score)` pairs selected by `generate_smart_summary`: stable
sort by score descending, truncate to `top_count`, stable re-sort by index
ascending. -/
def summary_selected (sentences : List String) (summary_type : String)
    (allWords : List String) : List (Nat × ℚ) :=
  let scores := sentences.enum.map
    (fun q => (q.1, sentence_score allWords sentences.length q.1 q.2))
  sort_ge (fun a b => decide (a.1 ≤ b.1))
    ((sort_ge (fun a b => decide (b.2 ≤ a.2)) scores).take
      (summary_top_count summary_type sentences.length))

/-- The list `summary_sentences` of `generate_smart_summary`, before joining. -/
def summary_sentences_of (content : String) (summary_type : String) : List String :=
  let cleaned := clean_pdf_content content
  let sentences := split_into_sentences cleaned
  (summary_selected sentences summary_type (extract_words cleaned)).map
    (fun q => sentences.getD q.1 "")

/-- `generate_smart_summary` (document_intelligence.py, lines 17-84). -/
def generate_smart_summary (content : String) (summary_type : String) : String :=
  let sentences := split_into_sentences (clean_pdf_content content)
  if sentences.isEmpty then "No content available for summarization."
  else String.mk (join_with [' '] ((summary_sentences_of content summary_type).map String.data))

/-- Concrete document used to settle claim C3. -/
def c3doc : String := "helloWorld went home late yesterday. Nothing else happens here now."

/-- Python `str.count`: non-overlapping occurrences, scanning left to right. -/
def count_occ_aux (small : List Char) : Nat → List Char → Nat
  | 0, _ => 0
  | _, [] => 0
  | fuel + 1, c :: cs =>
    if List.isPrefixOf small (c :: cs) then
      1 + count_occ_aux small fuel ((c :: cs).drop small.length)
    else count_occ_aux small fuel cs

def count_occ (big small : List Char) : Nat :=
  if small.isEmpty then big.length + 1
  else count_occ_aux small (big.length + 1) big

/-- All (possibly overlapping) occurrence start positions — the
`find(word, start); start = pos + 1` loop of `semantic_search`. -/
def occurrence_positions (big small : List Char) : List Nat :=
  (List.range (big.length + 1)).filter (fun i => List.isPrefixOf small (big.drop i))

/-- `snippet.replace('\n', ' ')`. -/
def replace_nl (l : List Char) : List Char := l.map (fun c => if c == '\n' then ' ' else c)

/-- Python slice `l[a:b]` for `0 ≤ a ≤ b`. -/
def slice_chars (l : List Char) (a b : Nat) : List Char := (l.drop a).take (b - a)

/-- First-occurrence deduplication, standing in for Python's `set(...)`.
Set iteration order in CPython is unspecified but fixed for a given query;
every property proved below is insensitive to the order chosen here. -/
def dedup_aux (seen : List String) : List String → List String
  | [] => []
  | x :: xs => if seen.contains x then dedup_aux seen xs else x :: dedup_aux (x :: seen) xs

def dedup_preserve (l : List String) : List String := dedup_aux [] l

/-- A result dict of `semantic_search` (server.py, lines 784-839). -/
structure SemResult where
  path : String
  relevance_score : ℚ
  context_snippets : List String
  word_count : Nat
deriving DecidableEq, Repr

/-- The per-document body of `semantic_search`'s loop: keyword-frequency
score weighted by word length, up to 2 context snippets per query word,
document skipped unless the raw score is positive; the kept score is
normalized by the document's word count. -/
def semantic_entry (query_words : List String) (d : Doc) : Option SemResult :=
  let content := d.text
  let content_lower := (lowerStr content).data
  let score := (query_words.map (fun w => count_occ content_lower w.data * w.length)).sum
  let context_snippets := (query_words.map (fun w =>
    ((occurrence_positions content_lower w.data).take 2).map (fun pos =>
      String.mk (replace_nl (slice_chars content.data (pos - 60)
        (min content.data.length (pos + 60))))))).flatten
  if 0 < score then
    some { path := d.path
           relevance_score := (score : ℚ) / ((split_ws content.data).length : ℚ)
           context_snippets := context_snippets.take 3
           word_count := (split_ws content.data).length }
  else none

/-- The query-word set of `semantic_search`: `set(query.lower().split())`. -/
def semantic_query_words (query : String) : List String :=
  dedup_preserve ((split_ws (lowerStr query).data).map String.mk)

/-- `semantic_search` (server.py, lines 784-839). -/
def semantic_search (docs : List Doc) (query : String) (max_results : Nat) : List SemResult :=
  let results := docs.filterMap (semantic_entry (semantic_query_words query))
  (sort_ge (fun a b => decide (b.relevance_score ≤ a.relevance_score)) results).take max_results

/-- `_extract_snippet` (document_intelligence.py, lines 355-380), with the
default `snippet_length = 150`. -/
def extract_snippet (content : String) (query_words : List String) : String :=
  let content_lower := (lowerStr content).data
  let first_pos := query_words.foldl (fun fp w =>
    match (occurrence_positions content_lower w.data).head? with
    | some pos => min fp pos
    | none => fp) content.data.length
  if first_pos == content.data.length then
    if 150 < content.data.length then String.mk (content.data.take 150 ++ ("...").data)
    else content
  else
    let start := first_pos - 75
    let stop := min content.data.length (start + 150)
    let snippet := slice_chars content.data start stop
    let snippet := if 0 < start then ("...").data ++ snippet else snippet
    let snippet := if stop < content.data.length then snippet ++ ("...").data else snippet
    String.mk (replace_nl snippet)

/-- A result dict of `find_related_content` (document_intelligence.py,
lines 214-256).  The source stores `relevance_score = score /
math.log(len(content_words) + 1)`, a real number; to keep the embedding
executable we store the exact rational `score` and the word count, from
which that real score is `score_num / log (word_count + 1)`; `rel_ge` below
compares exactly these real scores (see `rel_ge_iff`). -/
structure RelResult where
  path : String
  score_num : ℚ
  word_count : Nat
  snippet : String
deriving DecidableEq, Repr

/-- The per-document body of `find_related_content`'s loop: documents with
no extracted words are skipped; the TF-IDF-like raw score must be positive. -/
def related_entry (query_words : List String) (d : Doc) : Option RelResult :=
  let content_words := extract_words (lowerStr d.text)
  if content_words.isEmpty then none
  else
    let score := (query_words.map (fun w =>
      if 0 < content_words.count w then
        ((content_words.count w : ℚ) / (content_words.length : ℚ)) * (w.length : ℚ)
      else 0)).sum
    if 0 < score then
      some { path := d.path
             score_num := score
             word_count := content_words.length
             snippet := extract_snippet d.text query_words }
    else none

/-- Comparator embedding `relevance_score y ≤ relevance_score x` for
`find_related_content` results, where the real score is
`score_num / log (word_count + 1)`.  Cross-multiplying by the positive logs
and clearing rational denominators turns the comparison into the natural-
number power comparison below; `rel_ge_iff` proves the equivalence for the
positive scores and nonempty documents that `related_entry` produces. -/
def rel_ge (x y : RelResult) : Bool :=
  decide ((x.word_count + 1) ^ (y.score_num.num.toNat * x.score_num.den)
    ≤ (y.word_count + 1) ^ (x.score_num.num.toNat * y.score_num.den))

/-- The query-word set of `find_related_content`:
`set(self._extract_words(query.lower()))`. -/
def related_query_words (query : String) : List String :=
  dedup_preserve (extract_words (lowerStr query))

/-- `find_related_content` (document_intelligence.py, lines 214-256). -/
def find_related_content (query : String) (docs : List Doc) (max_results : Nat) :
    List RelResult :=
  let results := docs.filterMap (related_entry (related_query_words query))
  (sort_ge rel_ge results).take max_results

/-- Concrete corpus documents used to settle claim C6. -/
def c6docA : Doc := ⟨"a.md", "alpha"⟩

def c6docB : Doc := ⟨"b.md", "alpha"⟩

def c6docX : Doc := ⟨"x.md", "alpha alpha beta"⟩

def c6docY : Doc := ⟨"y.md", "alpha beta"⟩

/-- A Python number as stored in a `search_docs` match dict: the
exact-phrase score is the `int` 100, sentence scores are `float`s.  The
distinction matters because the result dict stores `str(score)`. -/
inductive PyNum where
  | intVal (n : Int)
  | floatVal (q : ℚ)
deriving DecidableEq, Repr

def pyNumToQ : PyNum → ℚ
  | .intVal n => (n : ℚ)
  | .floatVal q => q

/-- Decimal digits of a fractional part in `[0, 1)`; `none` when the
expansion does not terminate within `fuel` digits.  Every score evaluated in
the theorems below has a terminating expansion on which Python's binary
float arithmetic is exact, so its `str` is this exact expansion. -/
def frac_digits : Nat → ℚ → Option (List Char)
  | 0, q => if q = 0 then some [] else none
  | fuel + 1, q =>
    if q = 0 then some []
    else
      let digit := ⌊q * 10⌋.toNat
      match frac_digits fuel (q * 10 - ⌊q * 10⌋) with
      | some ds => some (Char.ofNat (48 + digit) :: ds)
      | none => none

/-- Python `str` of a float whose value is exactly the given rational:
sign, integer part, `'.'`, fractional digits (`".0"` for integral values).
The non-terminating fallback never arises in the evaluations below. -/
def pyFloatStr (q : ℚ) : String :=
  let sign := if q < 0 then "-" else ""
  let aq := |q|
  let ip := ⌊aq⌋.toNat
  match frac_digits 30 (aq - ⌊aq⌋) with
  | some [] => sign ++ toString ip ++ ".0"
  | some ds => sign ++ toString ip ++ "." ++ String.mk ds
  | none => sign ++ toString ip ++ "." ++ toString (aq - ⌊aq⌋).num ++ "e" ++ toString (aq - ⌊aq⌋).den

/-- Python `str(score)`. -/
def pyNumStr : PyNum → String
  | .intVal n => toString n
  | .floatVal q => pyFloatStr q

/-- One internal match dict of `search_docs`. -/
structure SearchMatch where
  score : PyNum
  snippet : String
  match_type : String
deriving DecidableEq, Repr

/-- One result dict of `search_docs`: note `score` is the *string*
`str(score)`, exactly as the code stores it. -/
structure SearchHit where
  path : String
  snippet : String
  score : String
  match_type : String
deriving DecidableEq, Repr

/-- `re.split(r'[.!?]+|\n\n+', text)`: a maximal run of `[.!?]`, or a run of
two-or-more newlines, separates pieces (a single newline does not). -/
def search_split_aux : Nat → List Char → List Char → List (List Char)
  | 0, _, acc => [acc.reverse]
  | _ + 1, [], acc => [acc.reverse]
  | fuel + 1, c :: cs, acc =>
    if isSentencePunct c then
      acc.reverse :: search_split_aux fuel (cs.dropWhile isSentencePunct) []
    else if c == '\n' && (cs.head? == some '\n') then
      acc.reverse :: search_split_aux fuel (cs.dropWhile (fun c2 => c2 == '\n')) []
    else
      search_split_aux fuel cs (c :: acc)

def search_split (l : List Char) : List (List Char) :=
  search_split_aux (l.length + 1) l []

/-- First occurrence index, Python `str.find` (when the caller has already
established containment). -/
def find_sub (big small : List Char) : Option Nat :=
  (occurrence_positions big small).head?

/-- Python string `<`: lexicographic by code point. -/
def str_lt : List Char → List Char → Bool
  | [], [] => false
  | [], _ :: _ => true
  | _ :: _, [] => false
  | a :: xs, b :: ys =>
    if a.toNat < b.toNat then true
    else if b.toNat < a.toNat then false
    else str_lt xs ys

/-- Python string `<=` (`a <= b  iff  not (b < a)`). -/
def str_le (a b : String) : Bool := !(str_lt b.data a.data)

/-- The per-document body of `search_docs` (server.py, lines 499-544):
an exact-phrase match scores the int 100; sentence-unit matches keeping at
least 60% of the query words score the float `(matched/total) * 80`; the
best match per document is kept (Python `max` keeps the first maximum), its
score stored as `str(score)`. -/
def search_doc_entry (query : String) (d : Doc) : Option SearchHit :=
  let query_lower := lowerStr query
  let query_words := (split_ws query_lower.data).map String.mk
  let text := d.text
  let text_lower := lowerStr text
  let exact_matches : List SearchMatch :=
    if contains_chars text_lower.data query_lower.data then
      let idx := (find_sub text_lower.data query_lower.data).getD 0
      [{ score := .intVal 100
         snippet := String.mk (replace_nl (slice_chars text.data (idx - 80)
           (min text.data.length (idx + 80))))
         match_type := "exact_phrase" }]
    else []
  let sentence_matches : List SearchMatch :=
    (search_split text.data).filterMap (fun sentence =>
      let sentence_lower := sentence.map Char.toLower
      let word_matches := (query_words.filter
        (fun w => contains_chars sentence_lower w.data)).length
      if (word_matches : ℚ) ≥ max 1 ((query_words.length : ℚ) * 0.6) then
        if 20 < (pyStripList sentence).length then
          some { score := .floatVal ((word_matches : ℚ) / (query_words.length : ℚ) * 80)
                 snippet :=
                   if 160 < (pyStripList sentence).length then
                     String.mk ((pyStripList sentence).take 160 ++ ("...").data)
                   else String.mk (pyStripList sentence)
                 match_type := "words_" ++ toString word_matches ++ "/"
                   ++ toString query_words.length }
        else none
      else none)
  match exact_matches ++ sentence_matches with
  | [] => none
  | m :: ms =>
    let best := ms.foldl (fun b x => if pyNumToQ b.score < pyNumToQ x.score then x else b) m
    some { path := d.path
           snippet := best.snippet
           score := pyNumStr best.score
           match_type := best.match_type }

/-- `search_docs` (server.py, lines 483-548): per-document best matches,
then `results.sort(key=lambda x: x["score"], reverse=True)` — a sort on the
*stringified* scores — truncated to `max_results`. -/
def search_docs (docs : List Doc) (query : String) (max_results : Nat) : List SearchHit :=
  let results := docs.filterMap (search_doc_entry query)
  (sort_ge (fun a b => str_le b.score a.score) results).take max_results

/-- Generic single-character splitter (Python `str.split(sep)` for a
one-character separator, keeping empty pieces). -/
def split_char (sep : Char) : List Char → List (List Char)
  | [] => [[]]
  | c :: cs =>
    if c == sep then [] :: split_char sep cs
    else
      match split_char sep cs with
      | [] => [[c]]
      | piece :: rest => (c :: piece) :: rest

/-- Path normalization performed by `pathlib.Path.resolve` on a symlink-free
tree: `..` pops one segment, `.` and empty segments vanish. -/
def normalize_segs (segs : List String) : List String :=
  segs.foldl (fun acc seg =>
    if seg == "." || seg == "" then acc
    else if seg == ".." then acc.dropLast
    else acc ++ [seg]) []

/-- `(DOCS_ROOT / relative_path).resolve()` for a normalized absolute root. -/
def resolve_path (root : List String) (rel : String) : List String :=
  normalize_segs (root ++ (split_char '/' rel.data).map String.mk)

/-- `DOCS_ROOT in path.parents or DOCS_ROOT == path.parent`: for normalized
absolute paths this says the root is a proper prefix of the resolved path. -/
def inside_root (root resolved : List String) : Bool :=
  List.isPrefixOf root resolved && !(decide (root = resolved))

/-- A minimal filesystem model: text files at absolute (normalized) paths. -/
structure SimpleFS where
  files : List (List String × String)

def fs_read (fs : SimpleFS) (p : List String) : Option String :=
  (fs.files.find? (fun e => decide (e.1 = p))).map Prod.snd

/-- Outcome of one document tool, as far as guarding is concerned: an error
dict, or the tool read the file('s) content and went on to process it. -/
inductive OpResult where
  | notFound
  | accessDenied
  | ok (content : String)
  | okPair (content1 content2 : String)
deriving DecidableEq, Repr

/-- `extract_section`'s guards (server.py, lines 563-567): existence check,
then the docs-root containment check, then processing of the content. -/
def extract_section_op (fs : SimpleFS) (root : List String) (rel : String) : OpResult :=
  let p := resolve_path root rel
  match fs_read fs p with
  | none => .notFound
  | some content => if !(inside_root root p) then .accessDenied else .ok content

/-- `summarize_document`'s guards (server.py, lines 648-652): identical to
`extract_section`'s. -/
def summarize_document_op (fs : SimpleFS) (root : List String) (rel : String) : OpResult :=
  let p := resolve_path root rel
  match fs_read fs p with
  | none => .notFound
  | some content => if !(inside_root root p) then .accessDenied else .ok content

/-- `analyze_document_structure`'s guards (server.py, lines 689-693): only
the existence check — the containment check is absent and the file is read. -/
def analyze_document_structure_op (fs : SimpleFS) (root : List String) (rel : String) :
    OpResult :=
  match fs_read fs (resolve_path root rel) with
  | none => .notFound
  | some content => .ok content

/-- `compare_documents`'s guards (server.py, lines 853-858): both paths must
exist; no containment check on either. -/
def compare_documents_op (fs : SimpleFS) (root : List String) (rel1 rel2 : String) :
    OpResult :=
  match fs_read fs (resolve_path root rel1), fs_read fs (resolve_path root rel2) with
  | some c1, some c2 => .okPair c1 c2
  | _, _ => .notFound

/-- `extract_definitions`'s guards (server.py, lines 924-928): existence
check only. -/
def extract_definitions_op (fs : SimpleFS) (root : List String) (rel : String) : OpResult :=
  match fs_read fs (resolve_path root rel) with
  | none => .notFound
  | some content => .ok content

/-- `generate_table_of_contents`'s guards for a single document (server.py,
lines 993-999): existence check only. -/
def generate_toc_op (fs : SimpleFS) (root : List String) (rel : String) : OpResult :=
  match fs_read fs (resolve_path root rel) with
  | none => .notFound
  | some content => .ok content

/-- `intelligent_summarize`'s guards (server.py, lines 1041-1046): existence
check only. -/
def intelligent_summarize_op (fs : SimpleFS) (root : List String) (rel : String) : OpResult :=
  match fs_read fs (resolve_path root rel) with
  | none => .notFound
  | some content => .ok content

/-- The filesystem and root used to settle claim C5: a docs root
`/srv/docs` containing `guide.md`, and a file `/srv/secret.txt` outside it. -/
def c5fs : SimpleFS :=
  ⟨[(["srv", "docs", "guide.md"], "# Intro\nhello"),
    (["srv", "secret.txt"], "top secret data")]⟩

def c5root : List String := ["srv", "docs"]

/-- Claim C9: with at least one heading, the flat and hierarchical extractors
return one section per parsed heading, in heading order, with identical
`title` and `level` at every index (the two views can differ only in the
`content` field and the `includes_subsections` flag). -/
theorem c9_flat_hier_alignment (content : String)
    (hne : collect_headers content ≠ []) :
    (extract_sections content).length = (collect_headers content).length ∧
    (extract_hierarchical_sections content).length = (collect_headers content).length ∧
    ∀ i : Nat,
      ((extract_sections content).getD i dfltSection).title
        = ((extract_hierarchical_sections content).getD i dfltSection).title ∧
      ((extract_sections content).getD i dfltSection).level
        = ((extract_hierarchical_sections content).getD i dfltSection).level := by
  have hempty : (collect_headers content).isEmpty = false := by
    simpa [List.isEmpty_iff] using hne
  refine ⟨?_, ?_, ?_⟩
  · simp [extract_sections, hempty]
  · simp [extract_hierarchical_sections, hempty]
  · intro i
    simp only [extract_sections, extract_hierarchical_sections, hempty, Bool.false_eq_true,
      if_false, List.getD_eq_getElem?_getD, List.getElem?_map]
    rcases h : (collect_headers content).enum[i]? with _ | p <;> simp

/-- Witness for C9 at a concrete two-heading document. -/
theorem c9_flat_hier_alignment_witness :
    (extract_sections "# A\nx\n## B\ny").length = (collect_headers "# A\nx\n## B\ny").length ∧
    (extract_hierarchical_sections "# A\nx\n## B\ny").length = (collect_headers "# A\nx\n## B\ny").length ∧
    ∀ i : Nat,
      ((extract_sections "# A\nx\n## B\ny").getD i dfltSection).title
        = ((extract_hierarchical_sections "# A\nx\n## B\ny").getD i dfltSection).title ∧
      ((extract_sections "# A\nx\n## B\ny").getD i dfltSection).level
        = ((extract_hierarchical_sections "# A\nx\n## B\ny").getD i dfltSection).level :=
  c9_flat_hier_alignment "# A\nx\n## B\ny" (by decide)

/-- Claim C2 (evidence of the code bug): on the document
`"# A\nhello\n## B\nworld"` the flat extractor's section for heading `# A`
has content `"hello\n## B\nworld"`: it contains the text of the strictly
deeper heading `## B` and the subsection body `world`, and it coincides with
the hierarchical extractor's content for the same heading, so the
`include_subsections = False` mode of `extract_section` does not exclude
subsection text.  The hierarchical flag is correctly `true` here. -/
theorem c2_flat_section_contains_subsection :
    ((extract_sections "# A\nhello\n## B\nworld").getD 0 dfltSection).content
        = "hello\n## B\nworld" ∧
    "## B".data <:+: ((extract_sections "# A\nhello\n## B\nworld").getD 0 dfltSection).content.data ∧
    ((extract_sections "# A\nhello\n## B\nworld").getD 0 dfltSection).content
      = ((extract_hierarchical_sections "# A\nhello\n## B\nworld").getD 0 dfltSection).content ∧
    ((extract_hierarchical_sections "# A\nhello\n## B\nworld").getD 0 dfltSection).includes_subsections
      = some true := by
  refine ⟨by decide, ?_, by decide, by decide⟩
  exact ⟨"hello\n".data, "\nworld".data, by decide⟩

lemma floor_le_roundHalfEven (q : ℚ) : ⌊q⌋ ≤ roundHalfEven q := by
  unfold roundHalfEven
  split_ifs <;> omega

lemma roundHalfEven_le_of_le {q : ℚ} {n : ℤ} (h : q ≤ (n : ℚ)) : roundHalfEven q ≤ n := by
  have hf : ⌊q⌋ ≤ n := by
    have h2 := Int.floor_le_floor h
    simpa using h2
  unfold roundHalfEven
  split_ifs with h1 h2 h3
  · exact hf
  · have hlt : (⌊q⌋ : ℚ) < q := by linarith [Int.floor_le q]
    have : (⌊q⌋ : ℚ) < (n : ℚ) := lt_of_lt_of_le hlt h
    have : ⌊q⌋ < n := by exact_mod_cast this
    omega
  · exact hf
  · have hge : (1 : ℚ)/2 ≤ q - ⌊q⌋ := le_of_not_lt h1
    have hlt : (⌊q⌋ : ℚ) < q := by linarith
    have : (⌊q⌋ : ℚ) < (n : ℚ) := lt_of_lt_of_le hlt h
    have : ⌊q⌋ < n := by exact_mod_cast this
    omega

lemma le_roundHalfEven_of_le {n : ℤ} {q : ℚ} (h : (n : ℚ) ≤ q) : n ≤ roundHalfEven q := by
  have hf : n ≤ ⌊q⌋ := Int.le_floor.mpr h
  have := floor_le_roundHalfEven q
  omega

lemma pyRound1_nonneg {q : ℚ} (h : 0 ≤ q) : 0 ≤ pyRound1 q := by
  unfold pyRound1
  have h0 : (0 : ℤ) ≤ roundHalfEven (q * 10) := by
    refine le_roundHalfEven_of_le ?_
    push_cast
    linarith
  have : (0 : ℚ) ≤ (roundHalfEven (q * 10) : ℚ) := by exact_mod_cast h0
  linarith

lemma pyRound1_le_hundred {q : ℚ} (h : q ≤ 100) : pyRound1 q ≤ 100 := by
  unfold pyRound1
  have h0 : roundHalfEven (q * 10) ≤ (1000 : ℤ) := by
    refine roundHalfEven_le_of_le ?_
    push_cast
    linarith
  have : (roundHalfEven (q * 10) : ℚ) ≤ (1000 : ℚ) := by exact_mod_cast h0
  linarith

lemma one_le_pyRound1 {q : ℚ} (h : 1 ≤ q) : 1 ≤ pyRound1 q := by
  unfold pyRound1
  have h0 : (10 : ℤ) ≤ roundHalfEven (q * 10) := by
    refine le_roundHalfEven_of_le ?_
    push_cast
    linarith
  have : (10 : ℚ) ≤ (roundHalfEven (q * 10) : ℚ) := by exact_mod_cast h0
  linarith

/-- Claim C8 (counterexample to the claim as stated): `analyze_readability`
rounds the clamped Flesch value to one decimal (`round(flesch_score, 1)`),
so on this document the returned score (83.3) is not equal to the exact
clamped formula value (83.32). -/
theorem c8_counterexample :
    flesch_score_of (analyze_readability c8doc) ≠
      max 0 (min 100 (206.835
        - 1.015 * (((extract_words (clean_pdf_content c8doc)).length : ℚ)
            / ((split_into_sentences (clean_pdf_content c8doc)).length : ℚ))
        - 84.6 * ((((extract_words (clean_pdf_content c8doc)).map count_syllables).sum : ℚ)
            / ((extract_words (clean_pdf_content c8doc)).length : ℚ)))) := by
  with_unfolding_all decide

/-- Claim C8 (amended): degenerate input (no sentences or no words after
cleaning) yields the neutral result with complexity "unknown" and scores 0;
otherwise the returned Flesch score equals the clamped formula value
*rounded to one decimal place*, hence lies in [0, 100], and the returned
grade level equals `max(1, ·)` of the grade formula rounded to one decimal
place, hence is ≥ 1. -/
theorem c8_readability_amended (content : String) :
    (split_into_sentences (clean_pdf_content content) = [] ∨
        extract_words (clean_pdf_content content) = [] →
      analyze_readability content = .degenerate ∧
      complexity_of (analyze_readability content) = "unknown" ∧
      flesch_score_of (analyze_readability content) = 0 ∧
      grade_level_of (analyze_readability content) = 0) ∧
    (split_into_sentences (clean_pdf_content content) ≠ [] →
      extract_words (clean_pdf_content content) ≠ [] →
      flesch_score_of (analyze_readability content) =
        pyRound1 (max 0 (min 100 (206.835
          - 1.015 * (((extract_words (clean_pdf_content content)).length : ℚ)
              / ((split_into_sentences (clean_pdf_content content)).length : ℚ))
          - 84.6 * ((((extract_words (clean_pdf_content content)).map count_syllables).sum : ℚ)
              / ((extract_words (clean_pdf_content content)).length : ℚ))))) ∧
      grade_level_of (analyze_readability content) =
        pyRound1 (max 1 (0.39 * (((extract_words (clean_pdf_content content)).length : ℚ)
              / ((split_into_sentences (clean_pdf_content content)).length : ℚ))
          + 11.8 * ((((extract_words (clean_pdf_content content)).map count_syllables).sum : ℚ)
              / ((extract_words (clean_pdf_content content)).length : ℚ)) - 15.59)) ∧
      0 ≤ flesch_score_of (analyze_readability content) ∧
      flesch_score_of (analyze_readability content) ≤ 100 ∧
      1 ≤ grade_level_of (analyze_readability content)) := by
  constructor
  · intro hdeg
    have hempty : ((split_into_sentences (clean_pdf_content content)).isEmpty
        || (extract_words (clean_pdf_content content)).isEmpty) = true := by
      rcases hdeg with h | h
      · rw [h]
        simp
      · rw [h]
        simp
    have hres : analyze_readability content = .degenerate := by
      simp only [analyze_readability, hempty]
      rfl
    rw [hres]
    exact ⟨rfl, rfl, rfl, rfl⟩
  · intro hs hw
    have hempty : ((split_into_sentences (clean_pdf_content content)).isEmpty
        || (extract_words (clean_pdf_content content)).isEmpty) = false := by
      simp [List.isEmpty_iff, hs, hw]
    have hwpos : 0 < (extract_words (clean_pdf_content content)).length :=
      List.length_pos.mpr hw
    clear hs hw
    have hres : analyze_readability content =
        .stats (pyRound1 (max 0 (min 100 (206.835
            - 1.015 * (((extract_words (clean_pdf_content content)).length : ℚ)
                / ((split_into_sentences (clean_pdf_content content)).length : ℚ))
            - 84.6 * ((((extract_words (clean_pdf_content content)).map count_syllables).sum : ℚ)
                / ((extract_words (clean_pdf_content content)).length : ℚ))))))
          (pyRound1 (max 1 (0.39 * (((extract_words (clean_pdf_content content)).length : ℚ)
                / ((split_into_sentences (clean_pdf_content content)).length : ℚ))
            + 11.8 * ((((extract_words (clean_pdf_content content)).map count_syllables).sum : ℚ)
                / ((extract_words (clean_pdf_content content)).length : ℚ)) - 15.59)))
          (if 70 ≤ max 0 (min 100 (206.835
              - 1.015 * (((extract_words (clean_pdf_content content)).length : ℚ)
                  / ((split_into_sentences (clean_pdf_content content)).length : ℚ))
              - 84.6 * ((((extract_words (clean_pdf_content content)).map count_syllables).sum : ℚ)
                  / ((extract_words (clean_pdf_content content)).length : ℚ)))) then "easy"
            else if 50 ≤ max 0 (min 100 (206.835
              - 1.015 * (((extract_words (clean_pdf_content content)).length : ℚ)
                  / ((split_into_sentences (clean_pdf_content content)).length : ℚ))
              - 84.6 * ((((extract_words (clean_pdf_content content)).map count_syllables).sum : ℚ)
                  / ((extract_words (clean_pdf_content content)).length : ℚ)))) then "moderate"
            else if 30 ≤ max 0 (min 100 (206.835
              - 1.015 * (((extract_words (clean_pdf_content content)).length : ℚ)
                  / ((split_into_sentences (clean_pdf_content content)).length : ℚ))
              - 84.6 * ((((extract_words (clean_pdf_content content)).map count_syllables).sum : ℚ)
                  / ((extract_words (clean_pdf_content content)).length : ℚ)))) then "difficult"
            else "very difficult")
          (pyRound1 (((extract_words (clean_pdf_content content)).length : ℚ)
              / ((split_into_sentences (clean_pdf_content content)).length : ℚ)))
          (pyRound2 ((((extract_words (clean_pdf_content content)).map count_syllables).sum : ℚ)
              / ((extract_words (clean_pdf_content content)).length : ℚ)))
          (split_into_sentences (clean_pdf_content content)).length
          (extract_words (clean_pdf_content content)).length := by
      simp only [analyze_readability, hempty]
      rw [if_neg Bool.false_ne_true, if_pos hwpos]
    rw [hres]
    refine ⟨rfl, rfl, ?_, ?_, ?_⟩
    · exact pyRound1_nonneg (le_max_left _ _)
    · exact pyRound1_le_hundred (max_le (by norm_num) (min_le_left _ _))
    · exact one_le_pyRound1 (le_max_left _ _)

/-- Witness for C8's amended theorem at the concrete document `c8doc`. -/
theorem c8_readability_witness :
    flesch_score_of (analyze_readability c8doc) =
      pyRound1 (max 0 (min 100 (206.835
        - 1.015 * (((extract_words (clean_pdf_content c8doc)).length : ℚ)
            / ((split_into_sentences (clean_pdf_content c8doc)).length : ℚ))
        - 84.6 * ((((extract_words (clean_pdf_content c8doc)).map count_syllables).sum : ℚ)
            / ((extract_words (clean_pdf_content c8doc)).length : ℚ))))) ∧
    0 ≤ flesch_score_of (analyze_readability c8doc) ∧
    flesch_score_of (analyze_readability c8doc) ≤ 100 ∧
    1 ≤ grade_level_of (analyze_readability c8doc) := by
  have h := (c8_readability_amended c8doc).2 (by decide) (by decide)
  exact ⟨h.1, h.2.2.1, h.2.2.2.1, h.2.2.2.2⟩

/-- Claim C4 (counterexample to the claim as stated): comparing the empty
document with itself gives similarity ratio 0, not 1.0, because the word-set
union is empty and the code falls back to 0. -/
theorem c4_counterexample :
    (compare_documents "" "").similarity_q ≠ 1 ∧
    (compare_documents "" "").unique_to_doc1 = ∅ ∧
    (compare_documents "" "").unique_to_doc2 = ∅ := by
  refine ⟨?_, ?_, ?_⟩ <;> with_unfolding_all decide

/-- Claim C4 (amended): self-comparison always has empty unique-word sets;
the similarity ratio is 1.0 whenever the document has at least one extracted
word, and 0 (the code's empty-union fallback, as the spec's own ratio rule
prescribes) when the word set is empty. -/
theorem c4_self_compare_amended (content : String) :
    (compare_documents content content).unique_to_doc1 = ∅ ∧
    (compare_documents content content).unique_to_doc2 = ∅ ∧
    (compare_documents content content).unique_to_doc1_count = 0 ∧
    (compare_documents content content).unique_to_doc2_count = 0 ∧
    (compare_word_set content ≠ ∅ → (compare_documents content content).similarity_q = 1) ∧
    (compare_word_set content = ∅ → (compare_documents content content).similarity_q = 0) := by
  refine ⟨?_, ?_, ?_, ?_, ?_, ?_⟩
  · simp [compare_documents]
  · simp [compare_documents]
  · simp [compare_documents]
  · simp [compare_documents]
  · intro h
    have hpos : 0 < (compare_word_set content).card :=
      Finset.card_pos.mpr (Finset.nonempty_iff_ne_empty.mpr h)
    have hcast : ((compare_word_set content).card : ℚ) ≠ 0 := by
      exact_mod_cast Nat.pos_iff_ne_zero.mp hpos
    simp only [compare_documents, Finset.inter_self, Finset.union_self]
    rw [if_pos hpos]
    exact div_self hcast
  · intro h
    simp [compare_documents, h]

/-- Witness for C4's amended theorem at a concrete one-word document. -/
theorem c4_self_compare_witness :
    (compare_documents "Hello." "Hello.").similarity_q = 1 ∧
    (compare_documents "Hello." "Hello.").unique_to_doc1 = ∅ := by
  have h := c4_self_compare_amended "Hello."
  exact ⟨h.2.2.2.2.1 (by with_unfolding_all decide), h.1⟩

lemma join_with_infix_of_mem {sep : List Char} {l : List (List Char)} {x : List Char}
    (hx : x ∈ l) : x <:+: join_with sep l := by
  induction l with
  | nil => cases hx
  | cons y ys ih =>
    rcases List.mem_cons.mp hx with h | h
    · subst h
      rcases ys with _ | ⟨z, zs⟩
      · exact List.infix_refl _
      · exact ⟨[], sep ++ join_with sep (z :: zs), by simp [join_with]⟩
    · rcases ys with _ | ⟨z, zs⟩
      · cases h
      · rcases ih h with ⟨s, t, hst⟩
        exact ⟨y ++ sep ++ s, t, by simp [join_with, ← hst, List.append_assoc]⟩

lemma foldl_min_le_init (l : List Nat) (a : Nat) : l.foldl Nat.min a ≤ a := by
  induction l generalizing a with
  | nil => exact le_rfl
  | cons x xs ih => exact le_trans (ih (Nat.min a x)) (Nat.min_le_left a x)

lemma foldl_min_le_mem {l : List Nat} {x : Nat} (a : Nat) (hx : x ∈ l) :
    l.foldl Nat.min a ≤ x := by
  induction l generalizing a with
  | nil => cases hx
  | cons y ys ih =>
    rcases List.mem_cons.mp hx with h | h
    · subst h
      exact le_trans (foldl_min_le_init ys (Nat.min a x)) (Nat.min_le_right a x)
    · exact ih (Nat.min a y) h

lemma list_min_le_of_mem {l : List Nat} {x : Nat} (hx : x ∈ l) : list_min l ≤ x := by
  rcases l with _ | ⟨y, ys⟩
  · cases hx
  · show ys.foldl Nat.min y ≤ x
    rcases List.mem_cons.mp hx with h | h
    · subst h
      exact foldl_min_le_init ys x
    · exact foldl_min_le_mem y h

lemma contains_str_eq_true {big small : String} :
    contains_str big small = true ↔ small.data <:+: big.data := by
  simp [contains_str, contains_chars]

lemma infix_append_of_infix {x m : List Char} (h : x <:+: m) (pre post : List Char) :
    x <:+: pre ++ m ++ post := by
  rcases h with ⟨s, t, hst⟩
  exact ⟨pre ++ s, t ++ post, by simp [← hst, List.append_assoc]⟩

/-- Claim C7: over any corpus in which no document has an extracted heading
containing the substring "troubleshooting", the gap-analysis output includes
a recommendation naming the troubleshooting checklist category. -/
theorem c7_gap_troubleshooting (docs : List Doc)
    (h : ∀ d ∈ docs, ∀ hd ∈ extract_headers d.text,
      contains_str (lowerStr hd.title) "troubleshooting" = false) :
    ∃ r ∈ (analyze_document_gaps docs).recommendations,
      contains_str r "troubleshooting" = true := by
  have hfilter : docs.filter (fun d => doc_covers d "troubleshooting") = [] := by
    rw [List.filter_eq_nil_iff]
    intro d hd
    have hall : ∀ s ∈ (extract_headers d.text).map (fun hd2 => lowerStr hd2.title),
        contains_str s "troubleshooting" = false := by
      intro s hs
      rcases List.mem_map.mp hs with ⟨hd2, hmem2, rfl⟩
      exact h d hd hd2 hmem2
    simp only [doc_covers, Bool.not_eq_true, List.any_eq_false]
    intro s hs
    simp [hall s hs]
  have hcov : ("troubleshooting", 0) ∈ section_coverage docs := by
    have hmem : "troubleshooting" ∈ common_sections := by decide
    have hmap : ((fun s => (s, (docs.filter (fun d => doc_covers d s)).length))
          "troubleshooting")
        ∈ common_sections.map (fun s => (s, (docs.filter (fun d => doc_covers d s)).length)) :=
      List.mem_map_of_mem _ hmem
    simpa [section_coverage, hfilter] using hmap
  have h0mem : (0 : Nat) ∈ (section_coverage docs).map Prod.snd :=
    List.mem_map.mpr ⟨("troubleshooting", 0), hcov, rfl⟩
  have hleast : list_min ((section_coverage docs).map Prod.snd) = 0 :=
    Nat.le_zero.mp (list_min_le_of_mem h0mem)
  have hmissing : "troubleshooting" ∈
      ((section_coverage docs).filter
        (fun p => decide (p.2 ≤ list_min ((section_coverage docs).map Prod.snd)))).map Prod.fst := by
    refine List.mem_map.mpr ⟨("troubleshooting", 0), ?_, rfl⟩
    refine List.mem_filter.mpr ⟨hcov, ?_⟩
    simp [hleast]
  set missing := ((section_coverage docs).filter
    (fun p => decide (p.2 ≤ list_min ((section_coverage docs).map Prod.snd)))).map Prod.fst with hmissdef
  have hne : missing.isEmpty = false := by
    have : missing ≠ [] := List.ne_nil_of_mem hmissing
    simpa [List.isEmpty_iff] using this
  refine ⟨"Consider adding " ++ join_comma missing ++ " sections to more documents", ?_, ?_⟩
  · simp only [analyze_document_gaps, ← hmissdef, hne]
    refine List.mem_append.mpr (Or.inr ?_)
    simp
  · rw [contains_str_eq_true]
    have hinf : ("troubleshooting").data <:+: (join_comma missing).data := by
      have hmem2 : ("troubleshooting").data ∈ missing.map String.data :=
        List.mem_map.mpr ⟨"troubleshooting", hmissing, rfl⟩
      have := @join_with_infix_of_mem ((", ").data) (missing.map String.data) (("troubleshooting").data) hmem2
      simpa [join_comma] using this
    have h2 := infix_append_of_infix hinf ("Consider adding ").data (" sections to more documents").data
    simpa [String.data_append] using h2

/-- Witness for C7 at a one-document corpus with a single "Intro" heading. -/
theorem c7_gap_troubleshooting_witness :
    ∃ r ∈ (analyze_document_gaps [⟨"a.md", "# Intro\nhello"⟩]).recommendations,
      contains_str r "troubleshooting" = true :=
  c7_gap_troubleshooting [⟨"a.md", "# Intro\nhello"⟩] (by decide)

lemma insert_ge_perm {α : Type} (ge : α → α → Bool) (x : α) (l : List α) :
    (insert_ge ge x l).Perm (x :: l) := by
  induction l with
  | nil => exact List.Perm.refl _
  | cons y ys ih =>
    by_cases h : ge x y = true
    · simp [insert_ge, h]
    · simp only [insert_ge, h, Bool.false_eq_true, if_false]
      exact ((ih.cons y).trans (List.Perm.swap x y ys))

lemma sort_ge_perm {α : Type} (ge : α → α → Bool) (l : List α) :
    (sort_ge ge l).Perm l := by
  induction l with
  | nil => exact List.Perm.refl _
  | cons x xs ih => exact (insert_ge_perm ge x (sort_ge ge xs)).trans (ih.cons x)

lemma sort_ge_length {α : Type} (ge : α → α → Bool) (l : List α) :
    (sort_ge ge l).length = l.length :=
  (sort_ge_perm ge l).length_eq

lemma mem_sort_ge {α : Type} {ge : α → α → Bool} {l : List α} {x : α} :
    x ∈ sort_ge ge l ↔ x ∈ l :=
  (sort_ge_perm ge l).mem_iff

lemma insert_ge_pairwise {α : Type} {ge : α → α → Bool} {x : α} {l : List α}
    (hl : l.Pairwise (fun a b => ge a b = true))
    (htot : ∀ a ∈ x :: l, ∀ b ∈ x :: l, ge a b = true ∨ ge b a = true)
    (htrans : ∀ a ∈ x :: l, ∀ b ∈ x :: l, ∀ c ∈ x :: l,
      ge a b = true → ge b c = true → ge a c = true) :
    (insert_ge ge x l).Pairwise (fun a b => ge a b = true) := by
  induction l with
  | nil => simp [insert_ge]
  | cons y ys ih =>
    rcases List.pairwise_cons.mp hl with ⟨hy, hys⟩
    by_cases h : ge x y = true
    · simp only [insert_ge, h, if_true]
      refine List.pairwise_cons.mpr ⟨?_, hl⟩
      intro z hz
      rcases List.mem_cons.mp hz with rfl | hz2
      · exact h
      · refine htrans x (by simp) y (by simp) z (by simp [hz2]) h (hy z hz2)
    · simp only [insert_ge, h, Bool.false_eq_true, if_false]
      have hyx : ge y x = true := by
        rcases htot x (by simp) y (by simp) with h2 | h2
        · exact absurd h2 h
        · exact h2
      refine List.pairwise_cons.mpr ⟨?_, ?_⟩
      · intro z hz
        have hz2 : z ∈ x :: ys := ((insert_ge_perm ge x ys).mem_iff).mp hz
        rcases List.mem_cons.mp hz2 with rfl | hz3
        · exact hyx
        · exact hy z hz3
      · refine ih hys ?_ ?_
        · intro a ha b hb
          refine htot a ?_ b ?_
          · rcases List.mem_cons.mp ha with rfl | h3
            · simp
            · simp [h3]
          · rcases List.mem_cons.mp hb with rfl | h3
            · simp
            · simp [h3]
        · intro a ha b hb c hc
          have hmem : ∀ w, w ∈ x :: ys → w ∈ x :: y :: ys := by
            intro w hw
            rcases List.mem_cons.mp hw with rfl | h3
            · simp
            · simp [h3]
          exact htrans a (hmem a ha) b (hmem b hb) c (hmem c hc)

lemma sort_ge_pairwise {α : Type} {ge : α → α → Bool} {l : List α}
    (htot : ∀ a ∈ l, ∀ b ∈ l, ge a b = true ∨ ge b a = true)
    (htrans : ∀ a ∈ l, ∀ b ∈ l, ∀ c ∈ l,
      ge a b = true → ge b c = true → ge a c = true) :
    (sort_ge ge l).Pairwise (fun a b => ge a b = true) := by
  induction l with
  | nil => simp [sort_ge]
  | cons x xs ih =>
    have hmem : ∀ w, w ∈ x :: sort_ge ge xs → w ∈ x :: xs := by
      intro w hw
      rcases List.mem_cons.mp hw with rfl | h3
      · simp
      · simp [mem_sort_ge.mp h3]
    refine insert_ge_pairwise ?_ ?_ ?_
    · refine ih ?_ ?_
      · intro a ha b hb
        exact htot a (by simp [ha]) b (by simp [hb])
      · intro a ha b hb c hc
        exact htrans a (by simp [ha]) b (by simp [hb]) c (by simp [hc])
    · intro a ha b hb
      exact htot a (hmem a ha) b (hmem b hb)
    · intro a ha b hb c hc
      exact htrans a (hmem a ha) b (hmem b hb) c (hmem c hc)

lemma map_getD_sublist {α : Type} (d : α) :
    ∀ (ss : List α) (idxs : List Nat), idxs.Pairwise (· < ·) →
      (∀ i ∈ idxs, i < ss.length) →
      (idxs.map (fun i => ss.getD i d)).Sublist ss := by
  intro ss
  induction ss with
  | nil =>
    intro idxs hpw hb
    have hnil : idxs = [] := by
      cases idxs with
      | nil => rfl
      | cons i tl => exact absurd (hb i (by simp)) (by simp)
    simp [hnil]
  | cons a ss2 ih =>
    intro idxs hpw hb
    cases idxs with
    | nil => simp
    | cons i tl =>
      rcases List.pairwise_cons.mp hpw with ⟨hlt, htl⟩
      have hshift : ∀ (l : List Nat), (∀ j ∈ l, 0 < j) →
          l.map (fun j => (a :: ss2).getD j d)
            = (l.map (fun j => j - 1)).map (fun k => ss2.getD k d) := by
        intro l hpos
        rw [List.map_map]
        refine List.map_congr_left ?_
        intro j hj
        rcases Nat.exists_eq_succ_of_ne_zero (Nat.pos_iff_ne_zero.mp (hpos j hj)) with ⟨j2, rfl⟩
        simp [List.getD_cons_succ]
      cases i with
      | zero =>
        have hpos : ∀ j ∈ tl, 0 < j := fun j hj => hlt j hj
        rw [List.map_cons, hshift tl hpos]
        have hhd : (a :: ss2).getD 0 d = a := by simp
        rw [hhd]
        refine List.Sublist.cons₂ a ?_
        refine ih (tl.map (fun j => j - 1)) ?_ ?_
        · refine (List.pairwise_map).mpr ?_
          refine List.Pairwise.imp_of_mem ?_ htl
          intro x y hx hy hxy
          have h1 := hpos x hx
          omega
        · intro k hk
          rcases List.mem_map.mp hk with ⟨j, hj, rfl⟩
          have hb2 := hb j (by simp [hj])
          have h1 := hpos j hj
          simp only [List.length_cons] at hb2
          omega
      | succ i2 =>
        have hpos : ∀ j ∈ (i2 + 1) :: tl, 0 < j := by
          intro j hj
          rcases List.mem_cons.mp hj with rfl | hj2
          · omega
          · have := hlt j hj2
            omega
        rw [hshift ((i2 + 1) :: tl) hpos]
        refine List.Sublist.cons a ?_
        refine ih (((i2 + 1) :: tl).map (fun j => j - 1)) ?_ ?_
        · refine (List.pairwise_map).mpr ?_
          refine List.Pairwise.imp_of_mem ?_ hpw
          intro x y hx hy hxy
          have h1 := hpos x hx
          omega
        · intro k hk
          rcases List.mem_map.mp hk with ⟨j, hj, rfl⟩
          have hb2 := hb j hj
          have h1 := hpos j hj
          simp only [List.length_cons] at hb2
          omega

lemma resplit_runs_aux_infix {p : Char → Bool} :
    ∀ (l acc : List Char) (b : Bool), (b = true → acc = []) →
      ∀ x ∈ resplit_runs_aux p l acc b, x <:+: acc.reverse ++ l := by
  intro l
  induction l with
  | nil =>
    intro acc b _ x hx
    simp only [resplit_runs_aux, List.mem_singleton] at hx
    subst hx
    exact ⟨[], [], by simp⟩
  | cons c cs ih =>
    intro acc b hinv x hx
    by_cases hp : p c = true
    · cases b with
      | true =>
        have hacc : acc = [] := hinv rfl
        subst hacc
        simp only [resplit_runs_aux, hp, if_true] at hx
        have hrec := ih [] true (fun _ => rfl) x hx
        simp only [List.reverse_nil, List.nil_append] at hrec ⊢
        rcases hrec with ⟨s, t, hst⟩
        exact ⟨c :: s, t, by simp [← hst]⟩
      | false =>
        simp only [resplit_runs_aux, hp, if_true] at hx
        rcases List.mem_cons.mp hx with rfl | hx2
        · exact ⟨[], c :: cs, by simp⟩
        · have hrec := ih [] true (fun _ => rfl) x hx2
          simp only [List.reverse_nil, List.nil_append] at hrec
          rcases hrec with ⟨s, t, hst⟩
          exact ⟨acc.reverse ++ (c :: s), t, by simp [← hst]⟩
    · simp only [resplit_runs_aux, hp, Bool.false_eq_true, if_false] at hx
      have hrec := ih (c :: acc) false (by intro h; cases h) x hx
      rcases hrec with ⟨s, t, hst⟩
      refine ⟨s, t, ?_⟩
      simpa [List.append_assoc] using hst

lemma pyStripList_infix (l : List Char) : pyStripList l <:+: l := by
  refine ⟨l.takeWhile pyIsSpace,
    ((l.dropWhile pyIsSpace).reverse.takeWhile pyIsSpace).reverse, ?_⟩
  conv_rhs => rw [← @List.takeWhile_append_dropWhile _ pyIsSpace l]
  rw [List.append_assoc]
  congr 1
  unfold pyStripList
  rw [← List.reverse_append, List.takeWhile_append_dropWhile, List.reverse_reverse]

lemma mem_split_into_sentences_infix {content : String} {s : String}
    (hs : s ∈ split_into_sentences content) : s.data <:+: content.data := by
  simp only [split_into_sentences, List.mem_map, List.mem_filter] at hs
  rcases hs with ⟨x, ⟨⟨piece, hpiece, rfl⟩, _⟩, rfl⟩
  show pyStripList piece <:+: content.data
  have h1 : pyStripList piece <:+: piece := pyStripList_infix piece
  have h2 : piece <:+: content.data := by
    have := resplit_runs_aux_infix content.data [] false (by intro h; cases h) piece hpiece
    simpa using this
  exact h1.trans h2

lemma fst_lt_of_mem_enum {α : Type} {l : List α} {q : Nat × α} (h : q ∈ l.enum) :
    q.1 < l.length := by
  cases q with
  | mk i a =>
    have h2 := List.mk_mem_enum_iff_getElem?.mp h
    exact (List.getElem?_eq_some.mp h2).1

lemma enum_pairwise_fst_lt {α : Type} (l : List α) :
    l.enum.Pairwise (fun a b => a.1 < b.1) := by
  have h := List.pairwise_lt_range l.length
  rw [← List.enum_map_fst] at h
  exact (List.pairwise_map).mp h

lemma summary_selected_facts (sentences : List String) (summary_type : String)
    (allWords : List String) :
    (summary_selected sentences summary_type allWords).length
        ≤ summary_top_count summary_type sentences.length ∧
    ((summary_selected sentences summary_type allWords).map Prod.fst).Pairwise (· < ·) ∧
    (∀ q ∈ summary_selected sentences summary_type allWords, q.1 < sentences.length) := by
  classical
  set scores := sentences.enum.map
    (fun q => (q.1, sentence_score allWords sentences.length q.1 q.2)) with hscores
  set taken := (sort_ge (fun a b => decide (b.2 ≤ a.2)) scores).take
    (summary_top_count summary_type sentences.length) with htaken
  have hperm : (summary_selected sentences summary_type allWords).Perm taken :=
    sort_ge_perm _ taken
  have htaken_sub : taken.Sublist (sort_ge (fun a b => decide (b.2 ≤ a.2)) scores) :=
    List.take_sublist _ _
  have hmem_scores : ∀ q ∈ summary_selected sentences summary_type allWords, q ∈ scores := by
    intro q hq
    have h1 : q ∈ taken := hperm.mem_iff.mp hq
    have h2 := htaken_sub.subset h1
    exact mem_sort_ge.mp h2
  have hbound : ∀ q ∈ summary_selected sentences summary_type allWords,
      q.1 < sentences.length := by
    intro q hq
    rcases List.mem_map.mp (hmem_scores q hq) with ⟨p, hp, rfl⟩
    exact fst_lt_of_mem_enum hp
  have hpw_ne_scores : scores.Pairwise (fun a b => a.1 ≠ b.1) := by
    rw [hscores]
    refine (List.pairwise_map).mpr ?_
    refine List.Pairwise.imp_of_mem ?_ (enum_pairwise_fst_lt sentences)
    intro a b _ _ hab
    exact Nat.ne_of_lt hab
  have hsymm : ∀ (a b : Nat × ℚ), a.1 ≠ b.1 → b.1 ≠ a.1 := fun a b h => h.symm
  have hpw_ne_sorted : (sort_ge (fun a b => decide (b.2 ≤ a.2)) scores).Pairwise
      (fun a b => a.1 ≠ b.1) :=
    ((sort_ge_perm _ scores).pairwise_iff (fun h => hsymm _ _ h)).mpr hpw_ne_scores
  have hpw_ne_taken : taken.Pairwise (fun a b => a.1 ≠ b.1) :=
    hpw_ne_sorted.sublist htaken_sub
  have hpw_ne : (summary_selected sentences summary_type allWords).Pairwise
      (fun a b => a.1 ≠ b.1) :=
    (hperm.pairwise_iff (fun h => hsymm _ _ h)).mpr hpw_ne_taken
  have hpw_le : (summary_selected sentences summary_type allWords).Pairwise
      (fun a b => decide (a.1 ≤ b.1) = true) := by
    refine sort_ge_pairwise ?_ ?_
    · intro a _ b _
      rcases Nat.le_total a.1 b.1 with h | h
      · exact Or.inl (by simpa using h)
      · exact Or.inr (by simpa using h)
    · intro a _ b _ c _ hab hbc
      have h1 : a.1 ≤ b.1 := by simpa using hab
      have h2 : b.1 ≤ c.1 := by simpa using hbc
      simpa using le_trans h1 h2
  refine ⟨?_, ?_, hbound⟩
  · have h1 := hperm.length_eq
    have h2 : taken.length ≤ summary_top_count summary_type sentences.length := by
      rw [htaken]
      exact (List.length_take_le _ _)
    omega
  · refine (List.pairwise_map).mpr ?_
    refine List.Pairwise.imp_of_mem ?_ (hpw_le.and hpw_ne)
    intro a b _ _ hab
    have h1 : a.1 ≤ b.1 := by simpa using hab.1
    exact lt_of_le_of_ne h1 hab.2

/-- Claim C3 (amended): for every document, the "short" smart summary selects
at most 3 sentences, its sentence list is a sublist (hence in original
document order) of the sentence list of the PDF-normalized text, and every
selected sentence is a verbatim substring of the PDF-normalized document
text (not, in general, of the raw source text — see the counterexample). -/
theorem c3_short_summary_amended (content : String) :
    (summary_sentences_of content "short").length ≤ 3 ∧
    (summary_sentences_of content "short").Sublist
      (split_into_sentences (clean_pdf_content content)) ∧
    (summary_sentences_of content "short").all
      (fun s => contains_str (clean_pdf_content content) s) = true := by
  classical
  rcases summary_selected_facts (split_into_sentences (clean_pdf_content content)) "short"
    (extract_words (clean_pdf_content content)) with ⟨hlen, hpw, hbound⟩
  have hform : summary_sentences_of content "short"
      = ((summary_selected (split_into_sentences (clean_pdf_content content)) "short"
          (extract_words (clean_pdf_content content))).map Prod.fst).map
        (fun i => (split_into_sentences (clean_pdf_content content)).getD i "") := by
    rw [List.map_map]
    rfl
  have hsub : (summary_sentences_of content "short").Sublist
      (split_into_sentences (clean_pdf_content content)) := by
    rw [hform]
    refine map_getD_sublist "" _ _ hpw ?_
    intro i hi
    rcases List.mem_map.mp hi with ⟨q, hq, rfl⟩
    exact hbound q hq
  refine ⟨?_, hsub, ?_⟩
  · have h1 : (summary_sentences_of content "short").length
        = (summary_selected (split_into_sentences (clean_pdf_content content)) "short"
            (extract_words (clean_pdf_content content))).length := by
      rw [hform, List.length_map, List.length_map]
    have h2 : summary_top_count "short" (split_into_sentences (clean_pdf_content content)).length ≤ 3 := by
      simp [summary_top_count]
    omega
  · refine List.all_eq_true.mpr ?_
    intro s hs
    have hmem : s ∈ split_into_sentences (clean_pdf_content content) := hsub.subset hs
    have hinf : s.data <:+: (clean_pdf_content content).data :=
      mem_split_into_sentences_infix hmem
    simpa [contains_str, contains_chars] using hinf

/-- Claim C3 (counterexample to the claim as stated): the short summary of
`c3doc` contains the sentence "hello World went home late yesterday", which
is not a verbatim substring of the source document — `_clean_pdf_content`
inserted a space into "helloWorld" before sentence statistics were
computed, and the summary is built from the cleaned text. -/
theorem c3_counterexample :
    "hello World went home late yesterday" ∈ summary_sentences_of c3doc "short" ∧
    contains_str c3doc "hello World went home late yesterday" = false := by
  constructor
  · with_unfolding_all decide
  · with_unfolding_all decide

lemma split_ws_aux_mem : ∀ (l acc : List Char), (∀ c ∈ acc, pyIsSpace c = false) →
    ∀ piece ∈ split_ws_aux l acc, piece ≠ [] ∧ ∀ c ∈ piece, pyIsSpace c = false := by
  intro l
  induction l with
  | nil =>
    intro acc hacc piece hp
    by_cases h : acc.isEmpty
    · simp [split_ws_aux, h] at hp
    · simp only [split_ws_aux, h, Bool.false_eq_true, if_false, List.mem_singleton] at hp
      subst hp
      constructor
      · simp only [ne_eq, List.reverse_eq_nil_iff]
        exact fun h2 => h (by simp [h2])
      · intro c hc
        exact hacc c (List.mem_reverse.mp hc)
  | cons c cs ih =>
    intro acc hacc piece hp
    by_cases hsp : pyIsSpace c = true
    · by_cases h : acc.isEmpty
      · simp only [split_ws_aux, hsp, if_true, h] at hp
        exact ih [] (by simp) piece hp
      · simp only [split_ws_aux, hsp, if_true, h, Bool.false_eq_true, if_false,
          List.mem_cons] at hp
        rcases hp with rfl | hp2
        · constructor
          · simp only [ne_eq, List.reverse_eq_nil_iff]
            exact fun h2 => h (by simp [h2])
          · intro c2 hc2
            exact hacc c2 (List.mem_reverse.mp hc2)
        · exact ih [] (by simp) piece hp2
    · simp only [split_ws_aux, hsp, Bool.false_eq_true, if_false] at hp
      refine ih (c :: acc) ?_ piece hp
      intro c2 hc2
      rcases List.mem_cons.mp hc2 with rfl | hc3
      · simpa using hsp
      · exact hacc c2 hc3

lemma split_ws_aux_eq_nil : ∀ (l acc : List Char), split_ws_aux l acc = [] →
    acc = [] ∧ ∀ c ∈ l, pyIsSpace c = true := by
  intro l
  induction l with
  | nil =>
    intro acc h
    by_cases h2 : acc.isEmpty
    · exact ⟨List.isEmpty_iff.mp h2, by simp⟩
    · simp [split_ws_aux, h2] at h
  | cons c cs ih =>
    intro acc h
    by_cases hsp : pyIsSpace c = true
    · by_cases h2 : acc.isEmpty
      · simp only [split_ws_aux, hsp, if_true, h2] at h
        rcases ih [] h with ⟨_, hall⟩
        refine ⟨List.isEmpty_iff.mp h2, ?_⟩
        intro c2 hc2
        rcases List.mem_cons.mp hc2 with rfl | hc3
        · exact hsp
        · exact hall c2 hc3
      · simp [split_ws_aux, hsp, h2] at h
    · simp only [split_ws_aux, hsp, Bool.false_eq_true, if_false] at h
      rcases ih (c :: acc) h with ⟨habs, _⟩
      cases habs

lemma count_occ_aux_pos {small : List Char} : ∀ (fuel : Nat) (l : List Char),
    0 < count_occ_aux small fuel l →
    ∃ t, t.IsSuffix l ∧ List.isPrefixOf small t = true := by
  intro fuel
  induction fuel with
  | zero => intro l h; simp [count_occ_aux] at h
  | succ fuel ih =>
    intro l h
    cases l with
    | nil => simp [count_occ_aux] at h
    | cons c cs =>
      by_cases hp : List.isPrefixOf small (c :: cs) = true
      · exact ⟨c :: cs, List.suffix_refl _, hp⟩
      · simp only [count_occ_aux, hp, Bool.false_eq_true, if_false] at h
        rcases ih cs h with ⟨t, ht, hpre⟩
        exact ⟨t, ht.trans (List.suffix_cons c cs), hpre⟩

lemma count_occ_char_mem {big small : List Char} {c : Char} (hsm : c ∈ small)
    (h : 0 < count_occ big small) : c ∈ big := by
  have hne : small.isEmpty = false := by
    cases small with
    | nil => cases hsm
    | cons a tl => rfl
  rw [count_occ, hne] at h
  simp only [Bool.false_eq_true, if_false] at h
  rcases count_occ_aux_pos _ _ h with ⟨t, ht, hpre⟩
  have hpre2 : small <+: t := List.isPrefixOf_iff_prefix.mp hpre
  exact (ht.sublist).subset (hpre2.sublist.subset hsm)

lemma toLower_of_pyIsSpace {c : Char} (h : pyIsSpace c = true) : Char.toLower c = c := by
  simp only [pyIsSpace, Bool.or_eq_true, beq_iff_eq] at h
  rcases h with ((((h | h) | h) | h) | h) | h <;> subst h <;> decide

lemma dedup_aux_subset : ∀ (l seen : List String) (x : String),
    x ∈ dedup_aux seen l → x ∈ l := by
  intro l
  induction l with
  | nil => intro seen x h; simp [dedup_aux] at h
  | cons y ys ih =>
    intro seen x h
    by_cases h2 : seen.contains y = true
    · simp only [dedup_aux, h2, if_true] at h
      exact List.mem_cons_of_mem y (ih seen x h)
    · simp only [dedup_aux, h2, Bool.false_eq_true, if_false, List.mem_cons] at h
      rcases h with rfl | h3
      · simp
      · exact List.mem_cons_of_mem y (ih (y :: seen) x h3)

lemma exists_pos_of_sum_pos {l : List Nat} (h : 0 < l.sum) : ∃ x ∈ l, 0 < x := by
  by_contra hc
  push_neg at hc
  have hz : l.sum = 0 := List.sum_eq_zero (fun x hx => by
    have := hc x hx
    omega)
  omega

/-- Claim C10: every `semantic_search` result has a strictly positive
relevance score — a document in which no query word occurs as a substring is
never returned, since each result's path belongs to a corpus document in
which some query word occurs — each result carries at most 3 context
snippets, and the whole result list has at most `max_results` entries. -/
theorem c10_semantic_search_bounds (docs : List Doc) (query : String) (max_results : Nat) :
    (semantic_search docs query max_results).length ≤ max_results ∧
    ∀ r ∈ semantic_search docs query max_results,
      0 < r.relevance_score ∧
      r.context_snippets.length ≤ 3 ∧
      ∃ d ∈ docs, r.path = d.path ∧ ∃ w ∈ semantic_query_words query,
        0 < count_occ (lowerStr d.text).data w.data := by
  constructor
  · simp only [semantic_search]
    exact List.length_take_le _ _
  · intro r hr
    have hr2 : r ∈ docs.filterMap (semantic_entry (semantic_query_words query)) := by
      have h1 := (List.take_sublist _ _).subset hr
      exact mem_sort_ge.mp h1
    rcases List.mem_filterMap.mp hr2 with ⟨d, hd, hentry⟩
    simp only [semantic_entry] at hentry
    by_cases hscore : 0 < ((semantic_query_words query).map
        (fun w => count_occ (lowerStr d.text).data w.data * w.length)).sum
    swap
    · rw [if_neg hscore] at hentry
      cases hentry
    rw [if_pos hscore] at hentry
    have hrec := Option.some.inj hentry
    subst hrec
    rcases exists_pos_of_sum_pos hscore with ⟨v, hv, hvpos⟩
    rcases List.mem_map.mp hv with ⟨w0, hw0, rfl⟩
    have hcnt : 0 < count_occ (lowerStr d.text).data w0.data := by
      by_contra h0
      have : count_occ (lowerStr d.text).data w0.data = 0 := by omega
      simp [this] at hvpos
    have hwpos : 0 < (split_ws d.text.data).length := by
      rcases List.mem_map.mp
        (dedup_aux_subset _ [] w0 hw0) with ⟨piece, hpiece, rfl⟩
      rcases split_ws_aux_mem _ [] (by simp) piece hpiece with ⟨hne, hchars⟩
      rcases List.exists_mem_of_ne_nil piece hne with ⟨c, hc⟩
      have hcw : c ∈ (String.mk piece).data := hc
      have hcbig : c ∈ (lowerStr d.text).data := count_occ_char_mem hcw hcnt
      rcases List.mem_map.mp hcbig with ⟨c0, hc0, hc0eq⟩
      have hc0sp : pyIsSpace c0 = false := by
        by_cases hsp : pyIsSpace c0 = true
        · have := toLower_of_pyIsSpace hsp
          rw [this] at hc0eq
          subst hc0eq
          rw [hchars _ hc] at hsp
          cases hsp
        · simpa using hsp
      have hnenil : split_ws d.text.data ≠ [] := by
        intro habs
        rcases split_ws_aux_eq_nil _ [] habs with ⟨_, hall⟩
        rw [hall c0 hc0] at hc0sp
        cases hc0sp
      exact List.length_pos.mpr hnenil
    refine ⟨?_, ?_, d, hd, rfl, w0, hw0, hcnt⟩
    · refine div_pos ?_ ?_
      · exact_mod_cast hscore
      · exact_mod_cast hwpos
    · exact List.length_take_le _ _

/-- Witness for C10 at a one-document corpus and the query "alpha". -/
theorem c10_semantic_search_bounds_witness :
    (semantic_search [⟨"a.md", "alpha beta"⟩] "alpha" 5).length ≤ 5 ∧
    (0 < ((semantic_search [⟨"a.md", "alpha beta"⟩] "alpha" 5).getD 0
        ⟨"", 0, [], 0⟩).relevance_score ∧
      ((semantic_search [⟨"a.md", "alpha beta"⟩] "alpha" 5).getD 0
        ⟨"", 0, [], 0⟩).context_snippets.length ≤ 3 ∧
      ∃ d ∈ [(⟨"a.md", "alpha beta"⟩ : Doc)],
        ((semantic_search [⟨"a.md", "alpha beta"⟩] "alpha" 5).getD 0
          ⟨"", 0, [], 0⟩).path = d.path ∧
        ∃ w ∈ semantic_query_words "alpha",
          0 < count_occ (lowerStr d.text).data w.data) :=
  ⟨(c10_semantic_search_bounds [⟨"a.md", "alpha beta"⟩] "alpha" 5).1,
    (c10_semantic_search_bounds [⟨"a.md", "alpha beta"⟩] "alpha" 5).2 _
      (by with_unfolding_all decide)⟩

lemma perm_pairwise_strict_eq {α : Type} {lt : α → α → Prop}
    (hasymm : ∀ x y, lt x y → lt y x → False) :
    ∀ (l₁ l₂ : List α), l₁.Perm l₂ → l₁.Pairwise lt → l₂.Pairwise lt → l₁ = l₂ := by
  intro l₁
  induction l₁ with
  | nil =>
    intro l₂ hp _ _
    exact List.Perm.nil_eq hp
  | cons x xs ih =>
    intro l₂ hp h1 h2
    cases l₂ with
    | nil =>
      have := hp.length_eq
      simp at this
    | cons y ys =>
      by_cases hxy : x = y
      · subst hxy
        have hxs : xs.Perm ys := hp.cons_inv
        rw [ih ys hxs (List.pairwise_cons.mp h1).2 (List.pairwise_cons.mp h2).2]
      · exfalso
        have hx2 : x ∈ ys := by
          have hmem : x ∈ y :: ys := hp.subset (by simp)
          rcases List.mem_cons.mp hmem with h | h
          · exact absurd h hxy
          · exact h
        have hy2 : y ∈ xs := by
          have hmem : y ∈ x :: xs := hp.symm.subset (by simp)
          rcases List.mem_cons.mp hmem with h | h
          · exact absurd h.symm hxy
          · exact h
        exact hasymm x y ((List.pairwise_cons.mp h1).1 y hy2)
          ((List.pairwise_cons.mp h2).1 x hx2)

/-- A stable sort is determined by the multiset and the comparison preorder
once no two elements tie: under a permutation of the input with pairwise
non-tied elements, `sort_ge` gives identical outputs. -/
lemma sort_ge_eq_of_perm {α : Type} {ge : α → α → Bool} {l₁ l₂ : List α}
    (hp : l₁.Perm l₂)
    (htot : ∀ a ∈ l₁, ∀ b ∈ l₁, ge a b = true ∨ ge b a = true)
    (htrans : ∀ a ∈ l₁, ∀ b ∈ l₁, ∀ c ∈ l₁,
      ge a b = true → ge b c = true → ge a c = true)
    (hdist : l₁.Pairwise (fun a b => ¬(ge a b = true ∧ ge b a = true))) :
    sort_ge ge l₁ = sort_ge ge l₂ := by
  have hasymm : ∀ x y : α, (ge x y = true ∧ ge y x = false) →
      (ge y x = true ∧ ge x y = false) → False := by
    intro x y h1 h2
    rw [h1.1] at h2
    cases h2.2
  have hsymm_dist : ∀ {a b : α}, ¬(ge a b = true ∧ ge b a = true) →
      ¬(ge b a = true ∧ ge a b = true) := by
    intro a b h hc
    exact h ⟨hc.2, hc.1⟩
  have hperm12 : (sort_ge ge l₁).Perm (sort_ge ge l₂) :=
    (sort_ge_perm ge l₁).trans (hp.trans (sort_ge_perm ge l₂).symm)
  have htot2 : ∀ a ∈ l₂, ∀ b ∈ l₂, ge a b = true ∨ ge b a = true := by
    intro a ha b hb
    exact htot a (hp.symm.subset ha) b (hp.symm.subset hb)
  have htrans2 : ∀ a ∈ l₂, ∀ b ∈ l₂, ∀ c ∈ l₂,
      ge a b = true → ge b c = true → ge a c = true := by
    intro a ha b hb c hc
    exact htrans a (hp.symm.subset ha) b (hp.symm.subset hb) c (hp.symm.subset hc)
  have hpw1 : (sort_ge ge l₁).Pairwise (fun a b => ge a b = true) :=
    sort_ge_pairwise htot htrans
  have hpw2 : (sort_ge ge l₂).Pairwise (fun a b => ge a b = true) :=
    sort_ge_pairwise htot2 htrans2
  have hdist1 : (sort_ge ge l₁).Pairwise (fun a b => ¬(ge a b = true ∧ ge b a = true)) :=
    ((sort_ge_perm ge l₁).pairwise_iff (fun h => hsymm_dist h)).mpr hdist
  have hdist2 : (sort_ge ge l₂).Pairwise (fun a b => ¬(ge a b = true ∧ ge b a = true)) := by
    have hdl2 : l₂.Pairwise (fun a b => ¬(ge a b = true ∧ ge b a = true)) :=
      (hp.pairwise_iff (fun h => hsymm_dist h)).mp hdist
    exact ((sort_ge_perm ge l₂).pairwise_iff (fun h => hsymm_dist h)).mpr hdl2
  have hstrict1 : (sort_ge ge l₁).Pairwise (fun a b => ge a b = true ∧ ge b a = false) := by
    refine (hpw1.and hdist1).imp ?_
    intro a b h
    refine ⟨h.1, ?_⟩
    cases hba : ge b a with
    | false => rfl
    | true => exact absurd ⟨h.1, hba⟩ h.2
  have hstrict2 : (sort_ge ge l₂).Pairwise (fun a b => ge a b = true ∧ ge b a = false) := by
    refine (hpw2.and hdist2).imp ?_
    intro a b h
    refine ⟨h.1, ?_⟩
    cases hba : ge b a with
    | false => rfl
    | true => exact absurd ⟨h.1, hba⟩ h.2
  exact perm_pairwise_strict_eq hasymm _ _ hperm12 hstrict1 hstrict2

/-- For the entries `related_entry` actually produces (positive score,
at least one word), the computable comparator `rel_ge` decides exactly the
real-number comparison of the normalized scores
`score_num / log (word_count + 1)`. -/
lemma rel_ge_iff {x y : RelResult} (hx : 0 < x.score_num) (hy : 0 < y.score_num)
    (hwx : 1 ≤ x.word_count) (hwy : 1 ≤ y.word_count) :
    rel_ge x y = true ↔
      (y.score_num : ℝ) / Real.log ((y.word_count : ℝ) + 1)
        ≤ (x.score_num : ℝ) / Real.log ((x.word_count : ℝ) + 1) := by
  have hM1 : (1 : ℝ) < (x.word_count : ℝ) + 1 := by
    have h1 : (1 : ℝ) ≤ (x.word_count : ℝ) := by exact_mod_cast hwx
    linarith
  have hN1 : (1 : ℝ) < (y.word_count : ℝ) + 1 := by
    have h1 : (1 : ℝ) ≤ (y.word_count : ℝ) := by exact_mod_cast hwy
    linarith
  have hlM : 0 < Real.log ((x.word_count : ℝ) + 1) := Real.log_pos hM1
  have hlN : 0 < Real.log ((y.word_count : ℝ) + 1) := Real.log_pos hN1
  have hdx : (0 : ℝ) < (x.score_num.den : ℝ) := by exact_mod_cast x.score_num.pos
  have hdy : (0 : ℝ) < (y.score_num.den : ℝ) := by exact_mod_cast y.score_num.pos
  have hnumx : ((x.score_num.num.toNat : ℕ) : ℝ) = ((x.score_num.num : ℤ) : ℝ) := by
    exact_mod_cast congrArg (fun n : ℤ => (n : ℝ))
      (Int.toNat_of_nonneg (le_of_lt (Rat.num_pos.mpr hx)))
  have hnumy : ((y.score_num.num.toNat : ℕ) : ℝ) = ((y.score_num.num : ℤ) : ℝ) := by
    exact_mod_cast congrArg (fun n : ℤ => (n : ℝ))
      (Int.toNat_of_nonneg (le_of_lt (Rat.num_pos.mpr hy)))
  have hcx : (x.score_num : ℝ) = ((x.score_num.num.toNat : ℕ) : ℝ) / ((x.score_num.den : ℕ) : ℝ) := by
    rw [Rat.cast_def, hnumx]
  have hcy : (y.score_num : ℝ) = ((y.score_num.num.toNat : ℕ) : ℝ) / ((y.score_num.den : ℕ) : ℝ) := by
    rw [Rat.cast_def, hnumy]
  rw [div_le_div_iff₀ hlN hlM, hcx, hcy, div_mul_eq_mul_div, div_mul_eq_mul_div,
    div_le_div_iff₀ hdy hdx]
  rw [rel_ge, decide_eq_true_iff]
  rw [← Nat.cast_le (α := ℝ)]
  push_cast
  rw [← Real.log_le_log_iff (by positivity) (by positivity)]
  rw [Real.log_pow, Real.log_pow]
  push_cast
  constructor
  · intro h
    nlinarith [h]
  · intro h
    nlinarith [h]

lemma related_entry_facts {qws : List String} {d : Doc} {r : RelResult}
    (h : related_entry qws d = some r) : 0 < r.score_num ∧ 1 ≤ r.word_count := by
  simp only [related_entry] at h
  by_cases hempty : (extract_words (lowerStr d.text)).isEmpty = true
  · rw [if_pos hempty] at h
    cases h
  · rw [if_neg hempty] at h
    by_cases hsc : 0 < (qws.map (fun w =>
        if 0 < (extract_words (lowerStr d.text)).count w then
          (((extract_words (lowerStr d.text)).count w : ℚ)
            / ((extract_words (lowerStr d.text)).length : ℚ)) * (w.length : ℚ)
        else 0)).sum
    · rw [if_pos hsc] at h
      have hrec := Option.some.inj h
      subst hrec
      refine ⟨hsc, ?_⟩
      have hne : extract_words (lowerStr d.text) ≠ [] := by
        simpa [List.isEmpty_iff] using hempty
      exact List.length_pos.mpr hne
    · rw [if_neg hsc] at h
      cases h

/-- Claim C6 (counterexample to the claim as stated): two documents with
identical content tie on relevance score, and the stable sort then keeps
enumeration order, so permuting the corpus permutes the `semantic_search`
result list. -/
theorem c6_counterexample :
    semantic_search [c6docA, c6docB] "alpha" 5
      ≠ semantic_search [c6docB, c6docA] "alpha" 5 := by
  with_unfolding_all decide

/-- Claim C6 (amended): provided no two retained documents tie on relevance
score, both `semantic_search` and `find_related_content` return identical
result lists under any permutation of the corpus enumeration order.  For
`find_related_content` the no-tie condition is phrased through the
computable comparator `rel_ge`, which by `rel_ge_iff` is exactly
distinctness of the real normalized scores `score / log(wordCount + 1)`. -/
theorem c6_order_independence_amended (docs1 docs2 : List Doc) (query : String)
    (max_results : Nat) (hperm : docs1.Perm docs2) :
    ((docs1.filterMap (semantic_entry (semantic_query_words query))).Pairwise
        (fun a b => a.relevance_score ≠ b.relevance_score) →
      semantic_search docs1 query max_results = semantic_search docs2 query max_results) ∧
    ((docs1.filterMap (related_entry (related_query_words query))).Pairwise
        (fun a b => ¬(rel_ge a b = true ∧ rel_ge b a = true)) →
      find_related_content query docs1 max_results
        = find_related_content query docs2 max_results) := by
  constructor
  · intro hdist
    simp only [semantic_search]
    refine congrArg (List.take max_results) ?_
    refine sort_ge_eq_of_perm (hperm.filterMap _) ?_ ?_ ?_
    · intro a _ b _
      rcases le_total b.relevance_score a.relevance_score with h | h
      · exact Or.inl (by simpa using h)
      · exact Or.inr (by simpa using h)
    · intro a _ b _ c _ hab hbc
      have h1 : b.relevance_score ≤ a.relevance_score := by simpa using hab
      have h2 : c.relevance_score ≤ b.relevance_score := by simpa using hbc
      simpa using le_trans h2 h1
    · refine hdist.imp ?_
      intro a b hne hc
      have h1 : b.relevance_score ≤ a.relevance_score := by simpa using hc.1
      have h2 : a.relevance_score ≤ b.relevance_score := by simpa using hc.2
      exact hne (le_antisymm h2 h1)
  · intro hdist
    simp only [find_related_content]
    refine congrArg (List.take max_results) ?_
    have hfacts : ∀ r ∈ docs1.filterMap (related_entry (related_query_words query)),
        0 < r.score_num ∧ 1 ≤ r.word_count := by
      intro r hr
      rcases List.mem_filterMap.mp hr with ⟨d, _, hd⟩
      exact related_entry_facts hd
    refine sort_ge_eq_of_perm (hperm.filterMap _) ?_ ?_ hdist
    · intro a _ b _
      simp only [rel_ge, decide_eq_true_iff]
      exact Nat.le_total _ _
    · intro a ha b hb c hc hab hbc
      rcases hfacts a ha with ⟨hsa, hwa⟩
      rcases hfacts b hb with ⟨hsb, hwb⟩
      rcases hfacts c hc with ⟨hsc, hwc⟩
      rw [rel_ge_iff hsa hsb hwa hwb] at hab
      rw [rel_ge_iff hsb hsc hwb hwc] at hbc
      rw [rel_ge_iff hsa hsc hwa hwc]
      exact le_trans hbc hab

/-- Witness for C6's amended theorem: two documents with distinct scores,
in both enumeration orders, for both search operations. -/
theorem c6_order_independence_witness :
    semantic_search [c6docX, c6docY] "alpha" 5
      = semantic_search [c6docY, c6docX] "alpha" 5 ∧
    find_related_content "alpha" [c6docX, c6docY] 5
      = find_related_content "alpha" [c6docY, c6docX] 5 :=
  ⟨(c6_order_independence_amended [c6docX, c6docY] [c6docY, c6docX] "alpha" 5
      (by with_unfolding_all decide)).1 (by with_unfolding_all decide),
    (c6_order_independence_amended [c6docX, c6docY] [c6docY, c6docX] "alpha" 5
      (by with_unfolding_all decide)).2 (by with_unfolding_all decide)⟩

/-- Claim C1 (evidence of the code bug): on this two-document corpus with
query "alpha beta", document a.md contains the query verbatim and gets the
exact-phrase match with score 100 — but the global sort compares the
*stringified* scores lexicographically, and "80.0" > "100" as strings, so
the partial-word match from b.md is ranked above the exact-phrase match,
contradicting the claimed ranking. -/
theorem c1_search_string_sort_bug :
    search_docs [⟨"a.md", "alpha beta are mentioned here"⟩,
        ⟨"b.md", "alpha likes the color beta very much"⟩] "alpha beta" 10
      = [{ path := "b.md", snippet := "alpha likes the color beta very much",
           score := "80.0", match_type := "words_2/2" },
         { path := "a.md", snippet := "alpha beta are mentioned here",
           score := "100", match_type := "exact_phrase" }] := by
  with_unfolding_all decide

/-- Claim C5 (evidence of the code bug): the relative path
`../secret.txt` resolves outside the docs root; `extract_section` and
`summarize_document` deny it, but `analyze_document_structure`,
`compare_documents`, `extract_definitions`, `generate_table_of_contents`
and `intelligent_summarize` perform no containment check and return the
out-of-root file's content. -/
theorem c5_missing_access_check :
    inside_root c5root (resolve_path c5root "../secret.txt") = false ∧
    extract_section_op c5fs c5root "../secret.txt" = .accessDenied ∧
    summarize_document_op c5fs c5root "../secret.txt" = .accessDenied ∧
    analyze_document_structure_op c5fs c5root "../secret.txt" = .ok "top secret data" ∧
    compare_documents_op c5fs c5root "../secret.txt" "../secret.txt"
      = .okPair "top secret data" "top secret data" ∧
    extract_definitions_op c5fs c5root "../secret.txt" = .ok "top secret data" ∧
    generate_toc_op c5fs c5root "../secret.txt" = .ok "top secret data" ∧
    intelligent_summarize_op c5fs c5root "../secret.txt" = .ok "top secret data" := by
  refine ⟨?_, ?_, ?_, ?_, ?_, ?_, ?_, ?_⟩ <;> decide
